import Mathlib

/-!
# A shallow embedding of the MAOS-TRAP Attack Flow parser

This file embeds `src/attack-flow/src/attack-flow-viz/js/parsers/attack-flow-parser.js`
(the `AttackFlowParser` class) as executable Lean definitions and proves
properties of the embedding.

Modelling conventions:
* JSON objects are flattened into one record type `JObj` holding every field the
  parser reads; an absent field is `none` (or `[]` for list-valued fields whose
  absence and emptiness are observationally equal in the source, because the
  source only ever iterates them or checks `length > 0`).
* JavaScript string truthiness (`undefined`, `null` and `""` are falsy) is
  modelled by `tstr` / `jsOr` / `jsOrO`.
* The mutable `this.objects[id] = obj` table is an insertion-ordered list;
  lookup (`objGet`) returns the last object bearing the id, matching property
  assignment overwrite semantics.  `Map.set`/`Map.get` on the node map is
  modelled the same way (`nmGet`).
* The unbounded recursion of `followEffectChain` is embedded with explicit
  fuel: a result of `none` means the recursion exceeded every finite depth,
  i.e. the JavaScript call does not terminate at that input.
* Property values in the builder (`.afb`) format are modelled as flat strings;
  the one-level flattening of nested property lists (the `author` sub-object)
  and list-valued `external_references` properties are not observable by any
  property proved here.
-/

namespace AttackFlowViz

/-- JS truthiness of an optional string: `undefined`/`null` and `""` are falsy. -/
def tstr : Option String → Bool
  | none => false
  | some s => s ≠ ""

/-- JS `a || b` for an optional string `a` and a string default `b`. -/
def jsOr (a : Option String) (b : String) : String :=
  if tstr a then a.getD b else b

/-- JS `a || b` for two optional strings. -/
def jsOrO (a b : Option String) : Option String :=
  if tstr a then a else b

/-- One kill-chain phase entry (`{ kill_chain_name, phase_name }`); the parser
only reads `phase_name`. -/
structure KillChainPhase where
  phase_name : String
  deriving Repr, DecidableEq

/-- A flattened JSON object carrying every field the parser reads.  Used both
for raw STIX objects and for the records `parseAFB` constructs. -/
structure JObj where
  id : Option String := none
  type : Option String := none
  /-- the `.afb` `instance` field (`instance` is a Lean keyword). -/
  inst : Option String := none
  properties : Option (List (String × String)) := none
  source : Option String := none
  target : Option String := none
  tactic_id : Option String := none
  tactic_ref : Option String := none
  technique_id : Option String := none
  technique_ref : Option String := none
  kill_chain_phases : List KillChainPhase := []
  effect_refs : List String := []
  on_true_refs : List String := []
  on_false_refs : List String := []
  source_ref : Option String := none
  target_ref : Option String := none
  start_refs : List String := []
  confidence : Option String := none
  execution_start : Option String := none
  execution_end : Option String := none
  ttp : Option String := none
  created : Option String := none
  modified : Option String := none
  name : Option String := none
  description : Option String := none
  scope : Option String := none
  author : Option String := none
  external_references : List String := []
  deriving Repr, DecidableEq

/-- The raw top-level JSON document.  `schema` records the truthiness of the
`schema` field; `objects` is present iff the document has an array there. -/
structure Doc where
  type : Option String := none
  schema : Bool := false
  objects : Option (List JObj) := none
  deriving Repr, DecidableEq

/-- `detectFormat(data)`: classify the document or throw. -/
def detectFormat (data : Doc) : Except String String :=
  if data.type == some "bundle" && data.objects.isSome then
    let objs := data.objects.getD []
    let hasAttackFlow := objs.any (fun obj => obj.type == some "attack-flow")
    let hasAttackAction := objs.any (fun obj => obj.type == some "attack-action")
    if hasAttackFlow || hasAttackAction then
      Except.ok "attack-flow"
    else
      Except.error "STIX bundle does not contain Attack Flow objects (attack-flow or attack-action). Please use an Attack Flow file."
  else if data.schema && data.objects.isSome then
    Except.ok "afb"
  else
    Except.error "Unknown format: Expected Attack Flow STIX bundle or AFB format"

/-- The fixed ATT&CK tactic-code table (`this.tacticMap`), in source order. -/
def tacticMap : List (String × String) :=
  [("TA0043", "Reconnaissance"),
   ("TA0042", "Resource Development"),
   ("TA0001", "Initial Access"),
   ("TA0002", "Execution"),
   ("TA0003", "Persistence"),
   ("TA0004", "Privilege Escalation"),
   ("TA0005", "Defense Evasion"),
   ("TA0006", "Credential Access"),
   ("TA0007", "Discovery"),
   ("TA0008", "Lateral Movement"),
   ("TA0009", "Collection"),
   ("TA0011", "Command and Control"),
   ("TA0010", "Exfiltration"),
   ("TA0040", "Impact"),
   ("TA0027", "Initial Access"),
   ("TA0041", "Execution"),
   ("TA0028", "Persistence"),
   ("TA0029", "Privilege Escalation"),
   ("TA0030", "Defense Evasion"),
   ("TA0031", "Credential Access"),
   ("TA0032", "Discovery"),
   ("TA0033", "Lateral Movement"),
   ("TA0035", "Collection"),
   ("TA0037", "Command and Control"),
   ("TA0036", "Exfiltration"),
   ("TA0034", "Impact"),
   ("TA0108", "Initial Access"),
   ("TA0104", "Execution"),
   ("TA0110", "Persistence"),
   ("TA0111", "Privilege Escalation"),
   ("TA0103", "Evasion"),
   ("TA0102", "Discovery"),
   ("TA0109", "Lateral Movement"),
   ("TA0100", "Collection"),
   ("TA0101", "Command and Control"),
   ("TA0107", "Inhibit Response Function"),
   ("TA0106", "Impair Process Control"),
   ("TA0105", "Impact")]

/-- `this.tacticMap[tid]`: property lookup, `undefined` key misses. -/
def tacticLookup (tid : Option String) : Option String :=
  tid.bind (fun t => (tacticMap.find? (fun e => e.1 == t)).map (·.2))

/-- A node of the canonical graph (`buildGraph` node literal). -/
structure Node where
  id : Option String
  technique_id : Option String
  technique_ref : Option String
  tactic_id : Option String
  tactic_ref : Option String
  tactic_name : String
  name : Option String
  description : Option String
  created : Option String
  modified : Option String
  confidence : String
  execution_start : Option String
  execution_end : Option String
  ttp : Option String
  sequence : Nat
  children : List (Option String)
  kill_chain_phases : List KillChainPhase
  deriving Repr, DecidableEq

/-- An edge of the canonical graph. -/
structure Edge where
  source : Option String
  target : Option String
  deriving Repr, DecidableEq

/-- The canonical graph (`this.graph`). -/
structure Graph where
  nodes : List Node
  edges : List Edge
  deriving Repr, DecidableEq

/-- The parser state after the constructor ran. -/
structure Parser where
  format : String
  objects : List JObj
  attackFlow : Option JObj
  actions : List JObj
  relationships : List JObj
  assets : List JObj
  conditions : List JObj
  operators : List JObj
  graph : Graph
  deriving Repr, DecidableEq

/-- `this.objects[k]`: last object stored under key `k`. -/
def objGet (objs : List JObj) (k : String) : Option JObj :=
  objs.reverse.find? (fun o => o.id == some k)

/-- `nodeMap.get(k)`: last node stored under key `k` (`Map.set` overwrites). -/
def nmGet (ns : List Node) (k : Option String) : Option Node :=
  ns.reverse.find? (fun n => n.id == k)

/-- The fresh parser state (constructor field initialisers). -/
def emptyParser (fmt : String) : Parser :=
  { format := fmt, objects := [], attackFlow := none, actions := [],
    relationships := [], assets := [], conditions := [], operators := [],
    graph := { nodes := [], edges := [] } }

/-- One step of the `parseAttackFlow` object loop: index the object, then
bucket it by its type tag. -/
def stixStep (p : Parser) (obj : JObj) : Parser :=
  let p := { p with objects := p.objects ++ [obj] }
  if obj.type == some "attack-flow" then { p with attackFlow := some obj }
  else if obj.type == some "attack-action" then { p with actions := p.actions ++ [obj] }
  else if obj.type == some "relationship" then { p with relationships := p.relationships ++ [obj] }
  else if obj.type == some "attack-asset" then { p with assets := p.assets ++ [obj] }
  else if obj.type == some "attack-condition" then { p with conditions := p.conditions ++ [obj] }
  else if obj.type == some "attack-operator" then { p with operators := p.operators ++ [obj] }
  else p

/-- `parseAttackFlow()`: bucket every bundle object. -/
def parseAttackFlow (data : Doc) (p : Parser) : Parser :=
  (data.objects.getD []).foldl stixStep p

/-- `getProperty(properties, key)`: first `[key, value]` pair wins. -/
def getProperty (properties : Option (List (String × String))) (key : String) :
    Option String :=
  match properties with
  | none => none
  | some props => (props.find? (fun pr => pr.1 == key)).map (·.2)

/-- The action record `parseAFB` constructs from an `action` schema object. -/
def afbAction (obj : JObj) : JObj :=
  { id := obj.inst, type := some "attack-action",
    name := getProperty obj.properties "name",
    description := getProperty obj.properties "description",
    technique_id := getProperty obj.properties "technique_id",
    technique_ref := getProperty obj.properties "technique_ref",
    tactic_id := getProperty obj.properties "tactic_id",
    tactic_ref := getProperty obj.properties "tactic_ref",
    confidence := getProperty obj.properties "confidence",
    execution_start := getProperty obj.properties "execution_start",
    execution_end := getProperty obj.properties "execution_end",
    ttp := getProperty obj.properties "ttp",
    inst := obj.inst }

/-- The asset record `parseAFB` constructs from an `asset` schema object. -/
def afbAsset (obj : JObj) : JObj :=
  { id := obj.inst, type := some "attack-asset",
    name := getProperty obj.properties "name",
    description := getProperty obj.properties "description" }

/-- The relationship record `parseAFB` constructs from a connector object. -/
def afbRel (obj : JObj) : JObj :=
  { source := obj.source, target := obj.target, type := obj.id }

/-- First pass of `parseAFB`: convert an `action` or `asset` schema object. -/
def afbFirstStep (p : Parser) (obj : JObj) : Parser :=
  if obj.id == some "action" then
    { p with actions := p.actions ++ [afbAction obj],
             objects := p.objects ++ [afbAction obj] }
  else if obj.id == some "asset" then
    { p with assets := p.assets ++ [afbAsset obj],
             objects := p.objects ++ [afbAsset obj] }
  else p

/-- Second pass of `parseAFB`: a `line`/`dynamic_line` object with truthy
source and target becomes a relationship record. -/
def afbSecondStep (p : Parser) (obj : JObj) : Parser :=
  if obj.id == some "dynamic_line" || obj.id == some "line" then
    if tstr obj.source && tstr obj.target then
      { p with relationships := p.relationships ++ [afbRel obj] }
    else p
  else p

/-- `parseAFB()`: flow metadata, then actions/assets, then connectors. -/
def parseAFB (data : Doc) (p : Parser) : Parser :=
  let objs := data.objects.getD []
  let flowObj := objs.find? (fun o => o.id == some "flow")
  let p :=
    match flowObj with
    | some f =>
        let af : JObj :=
          { name := getProperty f.properties "name",
            description := getProperty f.properties "description",
            scope := getProperty f.properties "scope",
            created := getProperty f.properties "created",
            modified := getProperty f.properties "modified",
            author := getProperty f.properties "author" }
        { p with attackFlow := some af }
    | none => p
  let p := objs.foldl afbFirstStep p
  objs.foldl afbSecondStep p

/-- `w.charAt(0).toUpperCase() + w.slice(1)` (ASCII case mapping). -/
def capFirst (w : String) : String :=
  match w.data with
  | [] => ""
  | c :: cs => String.mk (c.toUpper :: cs)

/-- Split a character list at a separator character (`split('-')`). -/
def splitCharAux (sep : Char) : List Char → List Char → List String
  | [], acc => [String.mk acc.reverse]
  | ch :: rest, acc =>
      if ch = sep then String.mk acc.reverse :: splitCharAux sep rest []
      else splitCharAux sep rest (ch :: acc)

/-- `s.split(sep)` for a single-character separator. -/
def splitChar (sep : Char) (s : String) : List String :=
  splitCharAux sep s.data []

/-- `parts.join(" ")`. -/
def joinSpace : List String → String
  | [] => ""
  | [w] => w
  | w :: ws => w ++ " " ++ joinSpace ws

/-- `s.toLowerCase()` (ASCII case mapping). -/
def lowerStr (s : String) : String :=
  String.mk (s.data.map Char.toLower)

/-- Title-case a hyphenated kill-chain phase name:
`phaseName.split('-').map(w => w.charAt(0).toUpperCase() + w.slice(1)).join(' ')`. -/
def titleCasePhase (phaseName : String) : String :=
  joinSpace ((splitChar (Char.ofNat 45) phaseName).map capFirst)

/-- Node construction for one extracted action record (`buildGraph` loop body).
Note the source consults `kill_chain_phases` unconditionally, overriding a
tactic name already resolved from `tactic_id`. -/
def buildNode (action : JObj) (index : Nat) : Node :=
  let tacticName0 := jsOr (tacticLookup action.tactic_id) "Unknown"
  let resolved : String × Option String :=
    match action.kill_chain_phases with
    | [] => (tacticName0, action.tactic_id)
    | ph :: _ =>
        let tn := titleCasePhase ph.phase_name
        match tacticMap.find? (fun e => lowerStr e.2 == lowerStr tn) with
        | some e => (tn, some e.1)
        | none => (tn, action.tactic_id)
  { id := jsOrO action.id action.inst,
    technique_id := action.technique_id,
    technique_ref := action.technique_ref,
    tactic_id := resolved.2,
    tactic_ref := action.tactic_ref,
    tactic_name := resolved.1,
    name := action.name,
    description := action.description,
    created := action.created,
    modified := action.modified,
    confidence := jsOr action.confidence "certain",
    execution_start := action.execution_start,
    execution_end := action.execution_end,
    ttp := action.ttp,
    sequence := index,
    children := [],
    kill_chain_phases := action.kill_chain_phases }

/-- All nodes, in extraction order (`this.actions.forEach((action, index) => ...)`). -/
def buildNodes (actions : List JObj) : List Node :=
  actions.enum.map (fun pr => buildNode pr.2 pr.1)

/-- The mutable state of edge resolution: the node array (aliased by the node
map) and the edge array.  `source.children.push(...)` mutates the node object
shared by the array and the map, rendered here as an id-keyed update. -/
structure BuildSt where
  nodes : List Node
  edges : List Edge
  deriving Repr, DecidableEq

/-- `source.children.push(target)` guarded by `includes`, applied to the node
stored under `sid`. -/
def pushChild (ns : List Node) (sid tid : Option String) : List Node :=
  ns.map (fun n =>
    if n.id == sid then
      if tid ∈ n.children then n else { n with children := n.children ++ [tid] }
    else n)

/-- `followEffectChain(sourceId, effectNode, edges, nodeMap)` with explicit
recursion fuel, decremented once per recursion level; `none` means the
JavaScript recursion exceeds every finite depth (the source carries no
visited guard).  Each reference list is iterated with
`refs.forEach(ref => { const nextNode = this.objects[ref]; if (nextNode) ... })`,
rendered as a `foldlM` over the optional state. -/
def followEffectChain (objs : List JObj) : Nat → Option String → JObj →
    BuildSt → Option BuildSt
  | 0, _, _, _ => none
  | fuel + 1, sourceId, effectNode, st =>
    if effectNode.type == some "attack-condition" then
      match effectNode.on_true_refs.foldlM (fun s ref =>
          match objGet objs ref with
          | some nextNode => followEffectChain objs fuel sourceId nextNode s
          | none => some s) st with
      | none => none
      | some st1 =>
          effectNode.on_false_refs.foldlM (fun s ref =>
            match objGet objs ref with
            | some nextNode => followEffectChain objs fuel sourceId nextNode s
            | none => some s) st1
    else if effectNode.type == some "attack-operator" then
      effectNode.effect_refs.foldlM (fun s ref =>
        match objGet objs ref with
        | some nextNode => followEffectChain objs fuel sourceId nextNode s
        | none => some s) st
    else if effectNode.type == some "attack-action" then
      match nmGet st.nodes sourceId, nmGet st.nodes effectNode.id with
      | some _, some _ =>
          some { nodes := pushChild st.nodes sourceId effectNode.id,
                 edges := st.edges ++ [{ source := sourceId, target := effectNode.id }] }
      | _, _ => some st
    else some st

/-- One iteration of a reference loop: resolve the reference and follow it
when present.  Definitionally equal to the loop body of `followEffectChain`. -/
def followOne (objs : List JObj) (fuel : Nat) (sourceId : Option String)
    (s : BuildSt) (ref : String) : Option BuildSt :=
  match objGet objs ref with
  | some nextNode => followEffectChain objs fuel sourceId nextNode s
  | none => some s

/-- The shared relationship-loop body: resolve both endpoints in the node map
and, when both resolve, push one edge and record the child. -/
def relEdgeStep (s : BuildSt) (src tgt : Option String) : BuildSt :=
  match nmGet s.nodes src, nmGet s.nodes tgt with
  | some source, some target =>
      { nodes := pushChild s.nodes source.id target.id,
        edges := s.edges ++ [{ source := source.id, target := target.id }] }
  | _, _ => s

/-- `buildAttackFlowEdges(nodeMap, edges)`: follow each action's effect
references, then add explicit relationship edges. -/
def buildAttackFlowEdges (p : Parser) (fuel : Nat) (st : BuildSt) : Option BuildSt :=
  match p.actions.foldlM (fun s action =>
      action.effect_refs.foldlM (followOne p.objects fuel action.id) s) st with
  | none => none
  | some st1 =>
      some (p.relationships.foldl
        (fun s rel => relEdgeStep s rel.source_ref rel.target_ref) st1)

/-- `buildAFBEdges(nodeMap, edges)`: one direct edge per resolvable connector. -/
def buildAFBEdges (p : Parser) (st : BuildSt) : BuildSt :=
  p.relationships.foldl (fun s rel => relEdgeStep s rel.source rel.target) st

/-- `buildGraph()`: build nodes, then edges by format. -/
def buildGraph (p : Parser) (fuel : Nat) : Option Parser :=
  let st0 : BuildSt := { nodes := buildNodes p.actions, edges := [] }
  if p.format == "attack-flow" then
    match buildAttackFlowEdges p fuel st0 with
    | none => none
    | some st => some { p with graph := { nodes := st.nodes, edges := st.edges } }
  else if p.format == "afb" then
    let st := buildAFBEdges p st0
    some { p with graph := { nodes := st.nodes, edges := st.edges } }
  else
    some { p with graph := { nodes := st0.nodes, edges := st0.edges } }

/-- The `parse()` dispatch on the detected format. -/
def extractDoc (data : Doc) (fmt : String) : Parser :=
  if fmt == "attack-flow" then parseAttackFlow data (emptyParser fmt)
  else if fmt == "afb" then parseAFB data (emptyParser fmt)
  else emptyParser fmt

/-- The whole constructor: `detectFormat`, the per-format extraction pass, and
`buildGraph`.  `some (.error e)` is a thrown format error; `none` means the
edge-resolution recursion does not terminate. -/
def make (data : Doc) (fuel : Nat) : Option (Except String Parser) :=
  match detectFormat data with
  | Except.error e => some (Except.error e)
  | Except.ok fmt =>
      match buildGraph (extractDoc data fmt) fuel with
      | none => none
      | some p2 => some (Except.ok p2)

/-- The mutable state of `getActionSequence`: the visited id set and the
`sequence` array (`unshift` prepends, so the head is the most recent). -/
structure VState where
  visited : List (Option String)
  seq : List (Option Node)
  deriving Repr, DecidableEq

/-- The inner `visit(nodeId)` closure of `getActionSequence`, with explicit
depth fuel.  The visited set is consulted before descending, so a sufficient
fuel always exists (proved below); `none` is fuel exhaustion.  The child loop
`node.children.forEach(childId => visit(childId))` is a `foldlM` over the
optional state. -/
def visitF (nodes : List Node) : Nat → Option String → VState → Option VState
  | 0, _, _ => none
  | fuel + 1, nodeId, st =>
    if nodeId ∈ st.visited then some st
    else
      let st1 : VState := { st with visited := nodeId :: st.visited }
      match nmGet nodes nodeId with
      | some node =>
          match node.children.foldlM (fun s c => visitF nodes fuel c s) st1 with
          | none => none
          | some st2 => some { st2 with seq := some node :: st2.seq }
      | none => some { st1 with seq := none :: st1.seq }

/-- `getActionSequence()` phase 1: visit the flow object's start references
that resolve to an attack-action. -/
def seqPhaseStarts (p : Parser) (fuel : Nat) (st : VState) : Option VState :=
  match p.attackFlow with
  | some flow =>
      flow.start_refs.foldlM (fun s startRef =>
        match objGet p.objects startRef with
        | some startNode =>
            if startNode.type == some "attack-action" then
              visitF p.graph.nodes fuel (some startRef) s
            else some s
        | none => some s) st
  | none => some st

/-- `getActionSequence()` phase 2: visit every node without an incoming edge
(run for the builder format, or when phase 1 produced nothing). -/
def seqPhaseRoots (p : Parser) (fuel : Nat) (st : VState) : Option VState :=
  if p.format == "afb" || st.seq.isEmpty then
    let nodesWithIncoming := p.graph.edges.map (·.target)
    let startNodes := p.graph.nodes.filter (fun n => !(nodesWithIncoming.contains n.id))
    startNodes.foldlM (fun s node => visitF p.graph.nodes fuel node.id s) st
  else some st

/-- `getActionSequence()` phase 3: visit any node still unvisited. -/
def seqPhaseRest (p : Parser) (fuel : Nat) (st : VState) : Option VState :=
  p.graph.nodes.foldlM (fun s node =>
    if s.visited.contains node.id then some s else visitF p.graph.nodes fuel node.id s) st

/-- `getActionSequence()`: post-order traversal from declared starts, then
from incoming-edge-free roots, then from everything left; finally filter the
`undefined` entries.  The fuel `nodes.length + 1` is proved sufficient below. -/
def getActionSequence (p : Parser) : Option (List Node) :=
  let fuel := p.graph.nodes.length + 1
  match seqPhaseStarts p fuel { visited := [], seq := [] } with
  | none => none
  | some st1 =>
      match seqPhaseRoots p fuel st1 with
      | none => none
      | some st2 =>
          match seqPhaseRest p fuel st2 with
          | none => none
          | some st3 => some (st3.seq.filterMap (fun x => x))

/-- The digit-to-tactic fallback table of `inferTactic`. -/
def digitTacticMap : List (String × String) :=
  [("0", "Initial Access"),
   ("1", "Execution"),
   ("2", "Persistence"),
   ("3", "Privilege Escalation"),
   ("4", "Defense Evasion"),
   ("5", "Credential Access"),
   ("6", "Discovery"),
   ("7", "Lateral Movement"),
   ("8", "Collection"),
   ("9", "Exfiltration")]

/-- `inferTactic(techniqueId)`: look up the second character. -/
def inferTactic (techniqueId : Option String) : String :=
  if !tstr techniqueId then "Unknown"
  else
    let charAt1 :=
      match (techniqueId.getD "").data.drop 1 with
      | [] => ""
      | c :: _ => String.mk [c]
    jsOr ((digitTacticMap.find? (fun e => e.1 == charAt1)).map (·.2)) "Unknown"

/-- The grouping key `node.tactic_name || this.inferTactic(node.technique_id)`. -/
def tacticKey (node : Node) : String :=
  if node.tactic_name == "" then inferTactic node.technique_id else node.tactic_name

/-- One step of the `getTactics` loop over nodes. -/
def tacticsStep (m : List (String × List Node)) (node : Node) :
    List (String × List Node) :=
  if tstr node.technique_id then
    let tacticName := tacticKey node
    if m.any (fun e => e.1 == tacticName) then
      m.map (fun e => if e.1 == tacticName then (e.1, e.2 ++ [node]) else e)
    else m ++ [(tacticName, [node])]
  else m

/-- `getTactics()`: group the graph's nodes, as an insertion-ordered map. -/
def getTactics (p : Parser) : List (String × List Node) :=
  p.graph.nodes.foldl tacticsStep []

/-- The record `getFlowMetadata` returns. -/
structure FlowMetadata where
  name : Option String
  description : Option String
  scope : Option String
  created : Option String
  modified : Option String
  author : Option String
  externalReferences : List String
  format : String
  actionCount : Nat
  relationshipCount : Nat
  deriving Repr, DecidableEq

/-- `getFlowMetadata()`: `null` without a flow object, else the metadata
record with derived counts. -/
def getFlowMetadata (p : Parser) : Option FlowMetadata :=
  match p.attackFlow with
  | none => none
  | some af =>
      some { name := af.name, description := af.description, scope := af.scope,
             created := af.created, modified := af.modified, author := af.author,
             externalReferences := af.external_references, format := p.format,
             actionCount := p.actions.length,
             relationshipCount := p.relationships.length }

/-! ## Shape predicates for format detection

These name the conditions `detectFormat` tests, for use in theorem
statements. -/

/-- The STIX-bundle shape test of `detectFormat`. -/
def isBundleShape (d : Doc) : Bool :=
  d.type == some "bundle" && d.objects.isSome

/-- Presence of an `attack-flow` or `attack-action` object in the bundle. -/
def hasFlowMarker (d : Doc) : Bool :=
  (d.objects.getD []).any (fun o => o.type == some "attack-flow") ||
  (d.objects.getD []).any (fun o => o.type == some "attack-action")

/-- The builder-format shape test of `detectFormat`. -/
def isAfbShape (d : Doc) : Bool :=
  d.schema && d.objects.isSome

/-- A document of one of the two accepted shapes. -/
def acceptedShape (d : Doc) : Bool :=
  (isBundleShape d && hasFlowMarker d) || (!isBundleShape d && isAfbShape d)

/-! ## The cyclic document refuting bounded recursion of `followEffectChain` -/

/-- An action whose single effect reference points at the condition below. -/
def cycAction : JObj :=
  { id := some "a1", type := some "attack-action", effect_refs := ["c1"] }

/-- A condition whose `on_true_refs` point back at itself. -/
def cycCond : JObj :=
  { id := some "c1", type := some "attack-condition", on_true_refs := ["c1"] }

/-- A well-detected STIX bundle containing the self-referential condition. -/
def cycDoc : Doc :=
  { type := some "bundle", objects := some [cycAction, cycCond] }

lemma cyc_fec_none : ∀ fuel st,
    followEffectChain [cycAction, cycCond] fuel (some "a1") cycCond st = none := by
  intro fuel
  induction fuel with
  | zero => intro st; rfl
  | succ n ih =>
      intro st
      have h1 : cycCond.type = some "attack-condition" := rfl
      have h2 : cycCond.on_true_refs = ["c1"] := rfl
      have h4 : objGet [cycAction, cycCond] "c1" = some cycCond := rfl
      simp only [followEffectChain, h1, h2, List.foldlM, h4, ih]
      rfl

/-- C1: refuted.  `followEffectChain` carries no visited-edge-origin guard, so
on a bundle whose condition routes back to itself the recursion exceeds every
finite depth: for every fuel bound, edge resolution of `cycDoc` is cut off by
the bound rather than terminating.  The claim asserts termination on every
cyclic document; this theorem shows the parse of `cycDoc` diverges. -/
theorem followEffectChain_diverges_on_cycle : ∀ fuel, make cycDoc fuel = none := by
  intro fuel
  have hacts : (extractDoc cycDoc "attack-flow").actions = [cycAction] := rfl
  have hobjs : (extractDoc cycDoc "attack-flow").objects = [cycAction, cycCond] := rfl
  have key : buildAttackFlowEdges (extractDoc cycDoc "attack-flow") fuel
      { nodes := buildNodes (extractDoc cycDoc "attack-flow").actions, edges := [] } = none := by
    have h4 : objGet [cycAction, cycCond] "c1" = some cycCond := rfl
    have he : cycAction.effect_refs = ["c1"] := rfl
    have hid : cycAction.id = some "a1" := rfl
    simp only [buildAttackFlowEdges, hacts, hobjs, List.foldlM, followOne, he, hid, h4,
      cyc_fec_none]
    rfl
  have hf : (extractDoc cycDoc "attack-flow").format = "attack-flow" := rfl
  have hbg : buildGraph (extractDoc cycDoc "attack-flow") fuel = none := by
    simp only [buildGraph, hf]
    simp only [show ("attack-flow" == "attack-flow") = true from rfl, if_true, key]
  have hdet : detectFormat cycDoc = Except.ok "attack-flow" := rfl
  simp only [make, hdet, hbg]

/-- C5: for every fuel bound, a document matching neither accepted shape (in
particular a bundle whose object list has no attack-flow and no attack-action
object, such as `objects: []`) makes the constructor throw a format error, so
no parser state and no graph is produced. -/
theorem detectFormat_rejects_bad_shape (data : Doc) (fuel : Nat)
    (h : acceptedShape data = false) :
    ∃ msg, make data fuel = some (Except.error msg) := by
  simp only [acceptedShape, Bool.or_eq_false_iff, Bool.and_eq_false_iff] at h
  by_cases hb : isBundleShape data = true
  · have hm : hasFlowMarker data = false := by
      rcases h.1 with h1 | h1
      · exact absurd hb (by simp [h1])
      · exact h1
    have hdet : detectFormat data =
        Except.error "STIX bundle does not contain Attack Flow objects (attack-flow or attack-action). Please use an Attack Flow file." := by
      simp only [isBundleShape, Bool.and_eq_true] at hb
      simp only [hasFlowMarker, Bool.or_eq_false_iff] at hm
      simp only [detectFormat, hb.1, hb.2, Bool.and_self, if_true, hm.1, hm.2,
        Bool.or_self, if_false]
      simp
    exact ⟨_, by simp only [make, hdet]; rfl⟩
  · have hb' : isBundleShape data = false := by
      cases hbe : isBundleShape data
      · rfl
      · exact absurd hbe hb
    have ha : isAfbShape data = false := by
      rcases h.2 with h1 | h1
      · simp [hb'] at h1
      · exact h1
    have hdet : detectFormat data =
        Except.error "Unknown format: Expected Attack Flow STIX bundle or AFB format" := by
      simp only [isBundleShape] at hb'
      simp only [isAfbShape] at ha
      simp only [detectFormat, hb', ha]
      rfl
    exact ⟨_, by simp only [make, hdet]; rfl⟩

/-- Witness for C5 at the claim's flagship input: the bundle `objects: []`. -/
theorem detectFormat_rejects_bad_shape_witness :
    acceptedShape { type := some "bundle", schema := false, objects := some [] } = false ∧
    ∃ msg, make { type := some "bundle", schema := false, objects := some [] } 7 =
      some (Except.error msg) :=
  ⟨by decide, detectFormat_rejects_bad_shape _ 7 (by decide)⟩

/-! ## C4: tactic resolution priority -/

/-- An action carrying both a known tactic identifier (TA0005, Defense
Evasion) and a kill-chain phase (`execution`). -/
def prioAction : JObj :=
  { id := some "x", type := some "attack-action", tactic_id := some "TA0005",
    kill_chain_phases := [{ phase_name := "execution" }] }

/-- A STIX bundle containing only `prioAction`. -/
def prioDoc : Doc :=
  { type := some "bundle", objects := some [prioAction] }

/-- C4 counterexample: the claim says a known `tactic_id` takes priority and
kill-chain phases are consulted only without one.  On `prioDoc` the action's
`tactic_id` TA0005 is in the table ("Defense Evasion"), yet the built node's
`tactic_name` is "Execution", taken from the kill-chain phase: the code lets
the phase override the known identifier. -/
theorem buildNode_phase_overrides_tactic_id :
    tacticLookup (some "TA0005") = some "Defense Evasion" ∧
    ∃ p, make prioDoc 5 = some (Except.ok p) ∧
      p.graph.nodes.map (fun n => n.tactic_name) = ["Execution"] := by
  refine ⟨rfl, _, rfl, ?_⟩
  decide

/-- C4 corrected: tactic resolution gives kill-chain phases priority.  If the
record carries no phase, the tactic name is the table entry for `tactic_id`
(defaulting to "Unknown"); if it carries at least one phase, the name is the
title-cased first phase and the tactic code is recovered from the table by
case-insensitive name match, keeping the record's `tactic_id` when no name
matches. -/
theorem buildNode_tactic_resolution (action : JObj) (index : Nat) :
    (action.kill_chain_phases = [] →
      (buildNode action index).tactic_name = jsOr (tacticLookup action.tactic_id) "Unknown" ∧
      (buildNode action index).tactic_id = action.tactic_id) ∧
    (∀ ph rest, action.kill_chain_phases = ph :: rest →
      (buildNode action index).tactic_name = titleCasePhase ph.phase_name ∧
      (buildNode action index).tactic_id =
        (match tacticMap.find?
            (fun e => lowerStr e.2 == lowerStr (titleCasePhase ph.phase_name)) with
         | some e => some e.1
         | none => action.tactic_id)) := by
  refine ⟨fun h => ?_, fun ph rest h => ?_⟩
  · constructor <;> simp [buildNode, h]
  · constructor <;>
      (cases hfind : tacticMap.find?
          (fun e => lowerStr e.2 == lowerStr (titleCasePhase ph.phase_name)) <;>
        simp [buildNode, h, hfind])

/-- Witness for the corrected C4 at concrete action records. -/
theorem buildNode_tactic_resolution_witness :
    (buildNode { tactic_id := some "TA0005" } 0).tactic_name =
      jsOr (tacticLookup (some "TA0005")) "Unknown" ∧
    (buildNode prioAction 0).tactic_name = titleCasePhase "execution" :=
  ⟨((buildNode_tactic_resolution { tactic_id := some "TA0005" } 0).1 rfl).1,
   (((buildNode_tactic_resolution prioAction 0).2) { phase_name := "execution" } [] rfl).1⟩

/-! ## C6: `getTactics` grouping -/

/-- The group stored under key `k` in the insertion-ordered map (`Map.get`,
empty when absent). -/
def groupOf (m : List (String × List Node)) (k : String) : List Node :=
  ((m.find? (fun e => e.1 == k)).map (fun e => e.2)).getD []

/-- An action with a known tactic identifier (so a known tactic name) but no
technique identifier. -/
def noTechAction : JObj :=
  { id := some "y", type := some "attack-action", tactic_id := some "TA0002" }

/-- A STIX bundle containing only `noTechAction`. -/
def noTechDoc : Doc :=
  { type := some "bundle", objects := some [noTechAction] }

/-- C6 counterexample: the claim says every node with a known `tactic_name`
is placed into the group keyed by that name.  Parsing `noTechDoc` yields one
node whose `tactic_name` is the known name "Execution", yet `getTactics`
returns no groups at all, because the source only groups nodes carrying a
truthy `technique_id`. -/
theorem getTactics_drops_technique_free_node :
    ∃ p, make noTechDoc 5 = some (Except.ok p) ∧
      p.graph.nodes.map (fun n => n.tactic_name) = ["Execution"] ∧
      getTactics p = [] := by
  refine ⟨_, rfl, by decide, by decide⟩

lemma find?_update (m : List (String × List Node)) (key k : String) (n : Node) :
    (m.map (fun e => if e.1 == key then (e.1, e.2 ++ [n]) else e)).find?
        (fun e => e.1 == k) =
      (m.find? (fun e => e.1 == k)).map
        (fun e => if e.1 == key then (e.1, e.2 ++ [n]) else e) := by
  rw [List.find?_map]
  have hp : ((fun e => e.1 == k) ∘
      (fun (e : String × List Node) => if e.1 == key then (e.1, e.2 ++ [n]) else e)) =
      (fun (e : String × List Node) => e.1 == k) := by
    funext e
    by_cases h : (e.1 == key) = true <;> simp [Function.comp, h]
  rw [hp]

lemma groupOf_step (m : List (String × List Node)) (n : Node) (k : String) :
    groupOf (tacticsStep m n) k =
      groupOf m k ++
        (if tstr n.technique_id && (tacticKey n == k) then [n] else []) := by
  unfold tacticsStep
  cases ht : tstr n.technique_id with
  | false => simp [ht]
  | true =>
    simp only [ht, if_true, Bool.true_and]
    cases ha : (m.any (fun e => e.1 == tacticKey n)) with
    | true =>
      simp only [ha, if_true]
      unfold groupOf
      rw [find?_update]
      cases hk : (tacticKey n == k) with
      | true =>
        have hkk : tacticKey n = k := by simpa using hk
        subst hkk
        have hs : (m.find? (fun e => e.1 == tacticKey n)).isSome = true := by
          rw [List.find?_isSome]
          simpa [List.any_eq_true] using ha
        obtain ⟨e0, he0⟩ := Option.isSome_iff_exists.mp hs
        have he0p := List.find?_some he0
        have he0e : e0.1 = tacticKey n := by simpa using he0p
        simp [he0, he0e, hk]
      | false =>
        cases hf : m.find? (fun e => e.1 == k) with
        | none => simp [hf, hk]
        | some e0 =>
            have he0p := List.find?_some hf
            have he0k : e0.1 = k := by simpa using he0p
            have hne : (e0.1 == tacticKey n) = false := by
              rw [he0k]
              cases hb : (k == tacticKey n)
              · rfl
              · exfalso
                have : tacticKey n = k := (by simpa using hb : k = tacticKey n).symm
                simp [this] at hk
            have hnee : ¬ (e0.1 = tacticKey n) := by simpa using hne
            simp [hf, hk, hnee]
    | false =>
      simp only [ha, Bool.false_eq_true, if_false]
      unfold groupOf
      rw [List.find?_append]
      cases hk : (tacticKey n == k) with
      | true =>
        have hkk : tacticKey n = k := by simpa using hk
        subst hkk
        have hnone : m.find? (fun e => e.1 == tacticKey n) = none := by
          rw [List.find?_eq_none]
          intro x hx hpx
          have : m.any (fun e => e.1 == tacticKey n) = true :=
            List.any_eq_true.mpr ⟨x, hx, hpx⟩
          simp [this] at ha
        simp [hnone, hk]
      | false => cases hf : m.find? (fun e => e.1 == k) with
        | none => simp [hf, hk]
        | some e0 => simp [hf, hk]

lemma tacticsFold_groupOf (l : List Node) (m : List (String × List Node)) (k : String) :
    groupOf (l.foldl tacticsStep m) k =
      groupOf m k ++ l.filter (fun n => tstr n.technique_id && (tacticKey n == k)) := by
  induction l generalizing m with
  | nil => simp
  | cons n l ih =>
      simp only [List.foldl_cons, ih, groupOf_step, List.filter_cons]
      by_cases h : (tstr n.technique_id && (tacticKey n == k)) = true <;>
        simp [h, List.append_assoc]

/-- C6 corrected: `getTactics` groups exactly the nodes carrying a truthy
`technique_id` (nodes with a known tactic name but no technique identifier
are skipped).  For every key, the group under that key lists, in first-
encounter order and once per occurrence, the technique-bearing nodes whose
grouping key (`tactic_name`, falling back to `inferTactic` on an empty name)
equals that key. -/
theorem getTactics_groups (p : Parser) (k : String) :
    groupOf (getTactics p) k =
      p.graph.nodes.filter (fun n => tstr n.technique_id && (tacticKey n == k)) := by
  unfold getTactics
  rw [tacticsFold_groupOf]
  simp [groupOf]

/-! ## Extraction-pass characterizations -/

lemma stixStep_char (p : Parser) (obj : JObj) :
    stixStep p obj = { p with
      objects := p.objects ++ [obj],
      attackFlow := if obj.type == some "attack-flow" then some obj else p.attackFlow,
      actions := p.actions ++ (if obj.type == some "attack-action" then [obj] else []),
      relationships := p.relationships ++
        (if obj.type == some "relationship" then [obj] else []),
      assets := p.assets ++ (if obj.type == some "attack-asset" then [obj] else []),
      conditions := p.conditions ++
        (if obj.type == some "attack-condition" then [obj] else []),
      operators := p.operators ++
        (if obj.type == some "attack-operator" then [obj] else []) } := by
  rcases p with ⟨fmt, objs, af, acts, rels, asts, conds, ops, g⟩
  unfold stixStep
  by_cases h1 : (obj.type == some "attack-flow") = true
  · have e1 : obj.type = some "attack-flow" := by simpa using h1
    simp [h1, e1]
  · by_cases h2 : (obj.type == some "attack-action") = true
    · have e2 : obj.type = some "attack-action" := by simpa using h2
      simp [h1, h2, e2]
    · by_cases h3 : (obj.type == some "relationship") = true
      · have e3 : obj.type = some "relationship" := by simpa using h3
        simp [h1, h2, h3, e3]
      · by_cases h4 : (obj.type == some "attack-asset") = true
        · have e4 : obj.type = some "attack-asset" := by simpa using h4
          simp [h1, h2, h3, h4, e4]
        · by_cases h5 : (obj.type == some "attack-condition") = true
          · have e5 : obj.type = some "attack-condition" := by simpa using h5
            simp [h1, h2, h3, h4, h5, e5]
          · by_cases h6 : (obj.type == some "attack-operator") = true
            · have e6 : obj.type = some "attack-operator" := by simpa using h6
              simp [h1, h2, h3, h4, h5, h6, e6]
            · simp [h1, h2, h3, h4, h5, h6]

lemma foldl_stix_format : ∀ (objs : List JObj) (p : Parser),
    (objs.foldl stixStep p).format = p.format := by
  intro objs
  induction objs with
  | nil => intro p; rfl
  | cons o objs ih => intro p; rw [List.foldl_cons, ih, stixStep_char]

lemma foldl_stix_graph : ∀ (objs : List JObj) (p : Parser),
    (objs.foldl stixStep p).graph = p.graph := by
  intro objs
  induction objs with
  | nil => intro p; rfl
  | cons o objs ih => intro p; rw [List.foldl_cons, ih, stixStep_char]

lemma foldl_stix_attackFlow_isSome : ∀ (objs : List JObj) (p : Parser),
    ((objs.foldl stixStep p).attackFlow).isSome =
      (p.attackFlow.isSome || objs.any (fun o => o.type == some "attack-flow")) := by
  intro objs
  induction objs with
  | nil => intro p; simp
  | cons o objs ih =>
      intro p
      rw [List.foldl_cons, ih, stixStep_char]
      cases h : (o.type == some "attack-flow") <;>
        simp [h, Bool.or_assoc]

lemma foldl_stix_actions : ∀ (objs : List JObj) (p : Parser),
    (objs.foldl stixStep p).actions =
      p.actions ++ objs.filter (fun o => o.type == some "attack-action") := by
  intro objs
  induction objs with
  | nil => intro p; simp
  | cons o objs ih =>
      intro p
      rw [List.foldl_cons, ih, stixStep_char, List.filter_cons]
      cases h : (o.type == some "attack-action") <;> simp [h]

lemma foldl_stix_relationships : ∀ (objs : List JObj) (p : Parser),
    (objs.foldl stixStep p).relationships =
      p.relationships ++ objs.filter (fun o => o.type == some "relationship") := by
  intro objs
  induction objs with
  | nil => intro p; simp
  | cons o objs ih =>
      intro p
      rw [List.foldl_cons, ih, stixStep_char, List.filter_cons]
      cases h : (o.type == some "relationship") <;> simp [h]

lemma foldl_stix_objects : ∀ (objs : List JObj) (p : Parser),
    (objs.foldl stixStep p).objects = p.objects ++ objs := by
  intro objs
  induction objs with
  | nil => intro p; simp
  | cons o objs ih =>
      intro p
      rw [List.foldl_cons, ih, stixStep_char]
      simp

lemma afbFirstStep_char (p : Parser) (obj : JObj) :
    afbFirstStep p obj = { p with
      actions := p.actions ++ (if obj.id == some "action" then [afbAction obj] else []),
      assets := p.assets ++ (if obj.id == some "asset" then [afbAsset obj] else []),
      objects := p.objects ++
        (if obj.id == some "action" then [afbAction obj]
         else if obj.id == some "asset" then [afbAsset obj] else []) } := by
  rcases p with ⟨fmt, objs, af, acts, rels, asts, conds, ops, g⟩
  unfold afbFirstStep
  by_cases h1 : (obj.id == some "action") = true
  · have e1 : obj.id = some "action" := by simpa using h1
    simp [h1, e1]
  · by_cases h2 : (obj.id == some "asset") = true
    · have e2 : obj.id = some "asset" := by simpa using h2
      simp [h1, h2, e2]
    · simp [h1, h2]

lemma afbSecondStep_char (p : Parser) (obj : JObj) :
    afbSecondStep p obj = { p with
      relationships := p.relationships ++
        (if (obj.id == some "dynamic_line" || obj.id == some "line") &&
            (tstr obj.source && tstr obj.target) then [afbRel obj] else []) } := by
  rcases p with ⟨fmt, objs, af, acts, rels, asts, conds, ops, g⟩
  unfold afbSecondStep
  by_cases h1 : (obj.id == some "dynamic_line" || obj.id == some "line") = true
  · by_cases h2 : (tstr obj.source && tstr obj.target) = true
    · simp [h1, h2]
    · simp [h1, h2]
  · simp [h1]

lemma foldl_afb1_actions : ∀ (objs : List JObj) (p : Parser),
    (objs.foldl afbFirstStep p).actions =
      p.actions ++ (objs.filter (fun o => o.id == some "action")).map afbAction := by
  intro objs
  induction objs with
  | nil => intro p; simp
  | cons o objs ih =>
      intro p
      rw [List.foldl_cons, ih, afbFirstStep_char, List.filter_cons]
      cases h : (o.id == some "action") <;> simp [h]

lemma foldl_afb1_others : ∀ (objs : List JObj) (p : Parser),
    (objs.foldl afbFirstStep p).format = p.format ∧
    (objs.foldl afbFirstStep p).attackFlow = p.attackFlow ∧
    (objs.foldl afbFirstStep p).relationships = p.relationships ∧
    (objs.foldl afbFirstStep p).graph = p.graph := by
  intro objs
  induction objs with
  | nil => intro p; exact ⟨rfl, rfl, rfl, rfl⟩
  | cons o objs ih =>
      intro p
      rw [List.foldl_cons]
      rcases ih (afbFirstStep p o) with ⟨i1, i2, i3, i4⟩
      rw [i1, i2, i3, i4, afbFirstStep_char]
      exact ⟨rfl, rfl, rfl, rfl⟩

lemma foldl_afb2_relationships : ∀ (objs : List JObj) (p : Parser),
    (objs.foldl afbSecondStep p).relationships =
      p.relationships ++
        (objs.filter (fun o => (o.id == some "dynamic_line" || o.id == some "line") &&
          (tstr o.source && tstr o.target))).map afbRel := by
  intro objs
  induction objs with
  | nil => intro p; simp
  | cons o objs ih =>
      intro p
      rw [List.foldl_cons, ih, afbSecondStep_char, List.filter_cons]
      cases h : ((o.id == some "dynamic_line" || o.id == some "line") &&
          (tstr o.source && tstr o.target)) <;> simp [h]

lemma foldl_afb2_others : ∀ (objs : List JObj) (p : Parser),
    (objs.foldl afbSecondStep p).format = p.format ∧
    (objs.foldl afbSecondStep p).attackFlow = p.attackFlow ∧
    (objs.foldl afbSecondStep p).actions = p.actions ∧
    (objs.foldl afbSecondStep p).objects = p.objects ∧
    (objs.foldl afbSecondStep p).graph = p.graph := by
  intro objs
  induction objs with
  | nil => intro p; exact ⟨rfl, rfl, rfl, rfl, rfl⟩
  | cons o objs ih =>
      intro p
      rw [List.foldl_cons]
      rcases ih (afbSecondStep p o) with ⟨i1, i2, i3, i4, i5⟩
      rw [i1, i2, i3, i4, i5, afbSecondStep_char]
      exact ⟨rfl, rfl, rfl, rfl, rfl⟩

/-! ## Pipeline inversion lemmas -/

lemma detectFormat_ok_cases (d : Doc) (fmt : String)
    (h : detectFormat d = Except.ok fmt) : fmt = "attack-flow" ∨ fmt = "afb" := by
  unfold detectFormat at h
  by_cases h1 : (d.type == some "bundle" && d.objects.isSome) = true
  · rw [if_pos h1] at h
    by_cases h2 : (((d.objects.getD []).any fun obj => obj.type == some "attack-flow") ||
        ((d.objects.getD []).any fun obj => obj.type == some "attack-action")) = true
    · rw [if_pos h2] at h
      exact Or.inl (Except.ok.inj h).symm
    · rw [if_neg h2] at h
      exact absurd h (by simp)
  · rw [if_neg h1] at h
    by_cases h2 : (d.schema && d.objects.isSome) = true
    · rw [if_pos h2] at h
      exact Or.inr (Except.ok.inj h).symm
    · rw [if_neg h2] at h
      exact absurd h (by simp)

lemma make_ok_elim (d : Doc) (fuel : Nat) (p : Parser)
    (h : make d fuel = some (Except.ok p)) :
    ∃ fmt, detectFormat d = Except.ok fmt ∧
      buildGraph (extractDoc d fmt) fuel = some p := by
  unfold make at h
  split at h
  next e heq => exact absurd h (by simp)
  next fmt heq =>
    split at h
    next hbg => exact absurd h (by simp)
    next p2 hbg =>
      have hp : p2 = p := Except.ok.inj (Option.some.inj h)
      exact ⟨fmt, heq, by rw [hbg, hp]⟩

lemma buildGraph_fields (q : Parser) (fuel : Nat) (p : Parser)
    (h : buildGraph q fuel = some p) :
    p.format = q.format ∧ p.objects = q.objects ∧ p.attackFlow = q.attackFlow ∧
    p.actions = q.actions ∧ p.relationships = q.relationships := by
  unfold buildGraph at h
  by_cases h1 : (q.format == "attack-flow") = true
  · rw [if_pos h1] at h
    cases hb : buildAttackFlowEdges q fuel
        { nodes := buildNodes q.actions, edges := [] } with
    | none => rw [hb] at h; exact absurd h (by simp)
    | some st =>
        rw [hb] at h
        have hp := Option.some.inj h
        rw [← hp]
        exact ⟨rfl, rfl, rfl, rfl, rfl⟩
  · rw [if_neg h1] at h
    by_cases h2 : (q.format == "afb") = true
    · rw [if_pos h2] at h
      have hp := Option.some.inj h
      rw [← hp]
      exact ⟨rfl, rfl, rfl, rfl, rfl⟩
    · rw [if_neg h2] at h
      have hp := Option.some.inj h
      rw [← hp]
      exact ⟨rfl, rfl, rfl, rfl, rfl⟩

lemma extractDoc_format (d : Doc) (fmt : String) :
    (extractDoc d fmt).format = fmt := by
  unfold extractDoc
  by_cases h1 : (fmt == "attack-flow") = true
  · rw [if_pos h1]
    unfold parseAttackFlow
    rw [foldl_stix_format]
    rfl
  · rw [if_neg h1]
    by_cases h2 : (fmt == "afb") = true
    · rw [if_pos h2]
      unfold parseAFB
      rcases foldl_afb2_others (d.objects.getD []) _ with ⟨i1, _, _, _, _⟩
      rw [i1]
      rcases foldl_afb1_others (d.objects.getD []) _ with ⟨j1, _, _, _⟩
      rw [j1]
      cases hf : (d.objects.getD []).find? (fun o => o.id == some "flow") <;> simp [hf] <;> rfl
    · rw [if_neg h2]
      rfl

/-! ## C10: `getFlowMetadata` nullability and counts -/

/-- Presence of a flow-level object in the document, by format: an
`attack-flow`-typed object for STIX, an object tagged `flow` for the builder
format. -/
def hasFlowObj (d : Doc) (fmt : String) : Bool :=
  if fmt == "attack-flow" then
    (d.objects.getD []).any (fun o => o.type == some "attack-flow")
  else
    (d.objects.getD []).any (fun o => o.id == some "flow")

lemma extractDoc_stix (d : Doc) :
    extractDoc d "attack-flow" = parseAttackFlow d (emptyParser "attack-flow") := rfl

lemma extractDoc_afb (d : Doc) :
    extractDoc d "afb" = parseAFB d (emptyParser "afb") := rfl

lemma parseAttackFlow_attackFlow_isSome (d : Doc) (p0 : Parser) :
    ((parseAttackFlow d p0).attackFlow).isSome =
      (p0.attackFlow.isSome ||
        (d.objects.getD []).any (fun o => o.type == some "attack-flow")) := by
  unfold parseAttackFlow
  rw [foldl_stix_attackFlow_isSome]

lemma parseAFB_attackFlow_isSome (d : Doc) (p0 : Parser) :
    ((parseAFB d p0).attackFlow).isSome =
      ((d.objects.getD []).any (fun o => o.id == some "flow") ||
        p0.attackFlow.isSome) := by
  simp only [parseAFB]
  rcases foldl_afb2_others (d.objects.getD []) _ with ⟨_, i2, _, _, _⟩
  rw [i2]
  rcases foldl_afb1_others (d.objects.getD []) _ with ⟨_, j2, _, _⟩
  rw [j2]
  cases hf : (d.objects.getD []).find? (fun o => o.id == some "flow") with
  | some f =>
      have hy : (d.objects.getD []).any (fun o => o.id == some "flow") = true := by
        rw [List.any_eq_true]
        have hpf := List.find?_some hf
        exact ⟨f, List.mem_of_find?_eq_some hf, hpf⟩
      simp [hf, hy]
  | none =>
      have hy : (d.objects.getD []).any (fun o => o.id == some "flow") = false := by
        rw [← Bool.not_eq_true, List.any_eq_true]
        rintro ⟨x, hx, hpx⟩
        exact absurd hpx (by simpa using List.find?_eq_none.mp hf x hx)
      simp [hf, hy]

/-- C10: for every successfully parsed document, `getFlowMetadata` returns
`null` exactly when the document carries no flow-level object for its format;
when a flow-level object exists the returned record's `actionCount` and
`relationshipCount` equal the number of extracted action and relationship
records. -/
theorem getFlowMetadata_null_iff (d : Doc) (fuel : Nat) (p : Parser)
    (hmk : make d fuel = some (Except.ok p)) :
    (hasFlowObj d p.format = false → getFlowMetadata p = none) ∧
    (hasFlowObj d p.format = true → ∃ md, getFlowMetadata p = some md ∧
      md.actionCount = p.actions.length ∧
      md.relationshipCount = p.relationships.length) := by
  obtain ⟨fmt, hdet, hbg⟩ := make_ok_elim d fuel p hmk
  obtain ⟨hf, ho, ha, hac, hrel⟩ := buildGraph_fields _ fuel p hbg
  have hfmt : p.format = fmt := by rw [hf, extractDoc_format]
  have haf : p.attackFlow.isSome = hasFlowObj d p.format := by
    rcases detectFormat_ok_cases d fmt hdet with hcase | hcase
    · subst hcase
      rw [ha, extractDoc_stix, parseAttackFlow_attackFlow_isSome]
      have : (emptyParser "attack-flow").attackFlow.isSome = false := rfl
      rw [this, Bool.false_or, hasFlowObj, hfmt]
      rw [if_pos (by rfl)]
    · subst hcase
      rw [ha, extractDoc_afb, parseAFB_attackFlow_isSome]
      have : (emptyParser "afb").attackFlow.isSome = false := rfl
      rw [this, Bool.or_false, hasFlowObj, hfmt]
      rw [if_neg (by decide)]
  constructor
  · intro h0
    have : p.attackFlow = none := by
      rw [← Option.not_isSome_iff_eq_none, haf, h0]
      simp
    unfold getFlowMetadata
    rw [this]
  · intro h1
    have hsome : p.attackFlow.isSome = true := by rw [haf, h1]
    obtain ⟨af, haf'⟩ := Option.isSome_iff_exists.mp hsome
    refine ⟨{ name := af.name, description := af.description, scope := af.scope,
              created := af.created, modified := af.modified, author := af.author,
              externalReferences := af.external_references, format := p.format,
              actionCount := p.actions.length,
              relationshipCount := p.relationships.length }, ?_, rfl, rfl⟩
    unfold getFlowMetadata
    rw [haf']

/-- A builder document with a flow object, one action and one connector. -/
def metaDoc : Doc :=
  { schema := true, objects := some
      [{ id := some "flow", properties := some [("name", "demo")] },
       { id := some "action", inst := some "i1",
         properties := some [("name", "a")] },
       { id := some "action", inst := some "i2",
         properties := some [("name", "b")] },
       { id := some "line", source := some "i1", target := some "i2" }] }

/-- Witness for C10: on `metaDoc` the flow object exists and the metadata
record counts the two extracted actions and the one relationship. -/
theorem getFlowMetadata_null_iff_witness :
    ∃ p, make metaDoc 5 = some (Except.ok p) ∧
      (hasFlowObj metaDoc p.format = true → ∃ md, getFlowMetadata p = some md ∧
        md.actionCount = p.actions.length ∧
        md.relationshipCount = p.relationships.length) ∧
      hasFlowObj metaDoc p.format = true ∧
      p.actions.length = 2 ∧ p.relationships.length = 1 :=
  ⟨_, rfl, (getFlowMetadata_null_iff metaDoc 5 _ rfl).2, by decide, by decide, by decide⟩

/-! ## Node-map and edge-resolution basics -/

/-- The id column of a node list. -/
def nodeIds (ns : List Node) : List (Option String) :=
  ns.map (fun n => n.id)

lemma nmGet_eq_some (ns : List Node) (k : Option String) (n : Node)
    (h : nmGet ns k = some n) : n ∈ ns ∧ n.id = k := by
  unfold nmGet at h
  have hm := List.mem_of_find?_eq_some h
  have hp := List.find?_some h
  exact ⟨List.mem_reverse.mp hm, by simpa using hp⟩

lemma nmGet_isSome_iff (ns : List Node) (k : Option String) :
    (nmGet ns k).isSome = true ↔ k ∈ nodeIds ns := by
  unfold nmGet nodeIds
  rw [List.find?_isSome]
  constructor
  · rintro ⟨n, hn, hp⟩
    exact List.mem_map.mpr ⟨n, List.mem_reverse.mp hn, by simpa using hp⟩
  · intro hk
    obtain ⟨n, hn, hid⟩ := List.mem_map.mp hk
    exact ⟨n, List.mem_reverse.mpr hn, by simp [hid]⟩

lemma contains_nodeIds (ns : List Node) (k : Option String) :
    ((nodeIds ns).contains k) = (nmGet ns k).isSome := by
  cases h : (nmGet ns k).isSome
  · have : ¬ k ∈ nodeIds ns := fun hm =>
      absurd ((nmGet_isSome_iff ns k).mpr hm) (by simp [h])
    simpa using this
  · have : k ∈ nodeIds ns := (nmGet_isSome_iff ns k).mp h
    simpa using this

lemma pushChild_ids (ns : List Node) (sid tid : Option String) :
    nodeIds (pushChild ns sid tid) = nodeIds ns := by
  unfold pushChild nodeIds
  rw [List.map_map]
  apply List.map_congr_left
  intro n _
  simp only [Function.comp]
  by_cases h : (n.id == sid) = true
  · simp only [h, if_true]
    split <;> rfl
  · simp [h]

lemma relEdgeStep_spec (s : BuildSt) (src tgt : Option String) :
    nodeIds (relEdgeStep s src tgt).nodes = nodeIds s.nodes ∧
    (relEdgeStep s src tgt).edges = s.edges ++
      (if (nodeIds s.nodes).contains src && (nodeIds s.nodes).contains tgt
       then [{ source := src, target := tgt }] else []) := by
  unfold relEdgeStep
  cases hs : nmGet s.nodes src with
  | none =>
      have hc : (nodeIds s.nodes).contains src = false := by
        rw [contains_nodeIds, hs]
        rfl
      cases htm : nmGet s.nodes tgt <;>
        simp only [hc, Bool.false_and, Bool.false_eq_true, if_false, List.append_nil] <;>
        constructor <;> trivial
  | some source =>
      have hcs : (nodeIds s.nodes).contains src = true := by
        rw [contains_nodeIds, hs]
        rfl
      cases ht : nmGet s.nodes tgt with
      | none =>
          have hc : (nodeIds s.nodes).contains tgt = false := by
            rw [contains_nodeIds, ht]
            rfl
          simp only [hc, Bool.and_false, Bool.false_eq_true, if_false, List.append_nil]
          constructor <;> trivial
      | some target =>
          have hct : (nodeIds s.nodes).contains tgt = true := by
            rw [contains_nodeIds, ht]
            rfl
          have hsrc := (nmGet_eq_some _ _ _ hs).2
          have htgt := (nmGet_eq_some _ _ _ ht).2
          refine ⟨pushChild_ids _ _ _, ?_⟩
          show (s.edges ++ [({ source := source.id, target := target.id } : Edge)]) = _
          rw [hsrc, htgt, hcs, hct]
          simp only [Bool.and_self, if_true]

lemma relEdgeStep_fold {α : Type} (fs ft : α → Option String) :
    ∀ (l : List α) (st : BuildSt),
    nodeIds ((l.foldl (fun s x => relEdgeStep s (fs x) (ft x)) st).nodes) =
        nodeIds st.nodes ∧
    (l.foldl (fun s x => relEdgeStep s (fs x) (ft x)) st).edges =
      st.edges ++ l.filterMap (fun x =>
        if (nodeIds st.nodes).contains (fs x) && (nodeIds st.nodes).contains (ft x)
        then some { source := fs x, target := ft x } else none) := by
  intro l
  induction l with
  | nil => intro st; simp
  | cons x l ih =>
      intro st
      rw [List.foldl_cons]
      rcases ih (relEdgeStep st (fs x) (ft x)) with ⟨i1, i2⟩
      rcases relEdgeStep_spec st (fs x) (ft x) with ⟨j1, j2⟩
      constructor
      · rw [i1, j1]
      · rw [i2, j1, j2, List.filterMap_cons]
        cases h : ((nodeIds st.nodes).contains (fs x) &&
            (nodeIds st.nodes).contains (ft x)) <;> simp [h]

lemma buildGraph_afb (q : Parser) (fuel : Nat) (p : Parser)
    (hq : q.format = "afb") (h : buildGraph q fuel = some p) :
    p.graph.nodes = (buildAFBEdges q { nodes := buildNodes q.actions, edges := [] }).nodes ∧
    p.graph.edges = (buildAFBEdges q { nodes := buildNodes q.actions, edges := [] }).edges := by
  unfold buildGraph at h
  rw [hq] at h
  have e1 : (("afb" : String) == "attack-flow") = false := rfl
  have e2 : (("afb" : String) == "afb") = true := rfl
  rw [e1] at h
  simp only [Bool.false_eq_true, if_false, e2, if_true] at h
  have hp := Option.some.inj h
  rw [← hp]
  exact ⟨rfl, rfl⟩

lemma buildGraph_stix (q : Parser) (fuel : Nat) (p : Parser)
    (hq : q.format = "attack-flow") (h : buildGraph q fuel = some p) :
    ∃ st, buildAttackFlowEdges q fuel { nodes := buildNodes q.actions, edges := [] } = some st ∧
      p.graph.nodes = st.nodes ∧ p.graph.edges = st.edges := by
  unfold buildGraph at h
  rw [hq] at h
  have e1 : (("attack-flow" : String) == "attack-flow") = true := rfl
  rw [e1] at h
  simp only [if_true] at h
  cases hb : buildAttackFlowEdges q fuel { nodes := buildNodes q.actions, edges := [] } with
  | none => rw [hb] at h; exact absurd h (by simp)
  | some st =>
      rw [hb] at h
      have hp := Option.some.inj h
      rw [← hp]
      exact ⟨st, rfl, rfl, rfl⟩

lemma parseAFB_relationships (d : Doc) (p0 : Parser) :
    (parseAFB d p0).relationships = p0.relationships ++
      ((d.objects.getD []).filter (fun o =>
        (o.id == some "dynamic_line" || o.id == some "line") &&
        (tstr o.source && tstr o.target))).map afbRel := by
  simp only [parseAFB]
  rw [foldl_afb2_relationships]
  rcases foldl_afb1_others (d.objects.getD []) _ with ⟨_, _, j3, _⟩
  rw [j3]
  cases hf : (d.objects.getD []).find? (fun o => o.id == some "flow") <;> simp [hf]

/-! ## The edge-resolution invariant: ids are stable, edges only grow, and
every new edge's endpoints name existing nodes -/

/-- Both endpoints of an edge name ids of the given column. -/
def EdgeOkIn (ids : List (Option String)) (e : Edge) : Prop :=
  e.source ∈ ids ∧ e.target ∈ ids

/-- Relation between build states before and after a resolution step. -/
def StOk (st st' : BuildSt) : Prop :=
  nodeIds st'.nodes = nodeIds st.nodes ∧
  ∃ l, st'.edges = st.edges ++ l ∧ ∀ e ∈ l, EdgeOkIn (nodeIds st.nodes) e

lemma stok_refl (st : BuildSt) : StOk st st :=
  ⟨rfl, [], by simp, fun e he => absurd he (List.not_mem_nil e)⟩

lemma stok_trans {s1 s2 s3 : BuildSt} (h1 : StOk s1 s2) (h2 : StOk s2 s3) :
    StOk s1 s3 := by
  obtain ⟨hn1, l1, he1, hk1⟩ := h1
  obtain ⟨hn2, l2, he2, hk2⟩ := h2
  refine ⟨by rw [hn2, hn1], l1 ++ l2, by rw [he2, he1, List.append_assoc], ?_⟩
  intro e he
  rcases List.mem_append.mp he with h | h
  · exact hk1 e h
  · have := hk2 e h
    rwa [hn1] at this

lemma foldlM_stok {α : Type} (f : BuildSt → α → Option BuildSt)
    (hf : ∀ s x s', f s x = some s' → StOk s s') :
    ∀ (l : List α) (st st' : BuildSt), l.foldlM f st = some st' → StOk st st' := by
  intro l
  induction l with
  | nil =>
      intro st st' h
      have : st = st' := by simpa using h
      rw [this]
      exact stok_refl st'
  | cons x l ih =>
      intro st st' h
      rw [List.foldlM_cons] at h
      cases hx : f st x with
      | none => rw [hx] at h; exact absurd h (by simp)
      | some s1 =>
          rw [hx] at h
          simp only [Option.bind_eq_bind, Option.some_bind] at h
          exact stok_trans (hf st x s1 hx) (ih s1 st' h)

lemma followEffectChain_stok : ∀ (fuel : Nat) (objs : List JObj)
    (sid : Option String) (node : JObj) (st st' : BuildSt),
    followEffectChain objs fuel sid node st = some st' → StOk st st' := by
  intro fuel
  induction fuel with
  | zero => intro objs sid node st st' h; exact absurd h (by simp [followEffectChain])
  | succ fuel ih =>
      intro objs sid node st st' h
      have hstep : ∀ (s : BuildSt) (ref : String) (s' : BuildSt),
          (match objGet objs ref with
           | some nextNode => followEffectChain objs fuel sid nextNode s
           | none => some s) = some s' → StOk s s' := by
        intro s ref s' hs
        cases ho : objGet objs ref with
        | some nxt =>
            rw [ho] at hs
            exact ih objs sid nxt s s' hs
        | none =>
            rw [ho] at hs
            have : s = s' := Option.some.inj hs
            rw [this]
            exact stok_refl s'
      simp only [followEffectChain] at h
      by_cases h1 : (node.type == some "attack-condition") = true
      · rw [if_pos h1] at h
        cases ht : node.on_true_refs.foldlM (fun s ref =>
            match objGet objs ref with
            | some nextNode => followEffectChain objs fuel sid nextNode s
            | none => some s) st with
        | none => rw [ht] at h; exact absurd h (by simp)
        | some st1 =>
            rw [ht] at h
            exact stok_trans (foldlM_stok _ hstep _ st st1 ht)
              (foldlM_stok _ hstep _ st1 st' h)
      · rw [if_neg h1] at h
        by_cases h2 : (node.type == some "attack-operator") = true
        · rw [if_pos h2] at h
          exact foldlM_stok _ hstep _ st st' h
        · rw [if_neg h2] at h
          by_cases h3 : (node.type == some "attack-action") = true
          · rw [if_pos h3] at h
            cases hs : nmGet st.nodes sid with
            | none =>
                rw [hs] at h
                cases ht : nmGet st.nodes node.id <;> rw [ht] at h <;>
                  exact Option.some.inj h ▸ stok_refl st
            | some source =>
                cases ht : nmGet st.nodes node.id with
                | none =>
                    rw [hs, ht] at h
                    have := Option.some.inj h
                    rw [← this]
                    exact stok_refl st
                | some target =>
                    rw [hs, ht] at h
                    have hp := Option.some.inj h
                    rw [← hp]
                    refine ⟨pushChild_ids _ _ _, [{ source := sid, target := node.id }],
                      rfl, ?_⟩
                    intro e he
                    have he' : e = { source := sid, target := node.id } := by
                      simpa using he
                    rw [he']
                    constructor
                    · have := nmGet_eq_some _ _ _ hs
                      exact this.2 ▸ List.mem_map.mpr ⟨source, this.1, rfl⟩
                    · have := nmGet_eq_some _ _ _ ht
                      exact this.2 ▸ List.mem_map.mpr ⟨target, this.1, rfl⟩
          · rw [if_neg h3] at h
            have := Option.some.inj h
            rw [← this]
            exact stok_refl st

lemma foldl_stok {α : Type} (f : BuildSt → α → BuildSt)
    (hf : ∀ s x, StOk s (f s x)) :
    ∀ (l : List α) (st : BuildSt), StOk st (l.foldl f st) := by
  intro l
  induction l with
  | nil => intro st; exact stok_refl st
  | cons x l ih =>
      intro st
      rw [List.foldl_cons]
      exact stok_trans (hf st x) (ih (f st x))

lemma relEdgeStep_stok (s : BuildSt) (src tgt : Option String) :
    StOk s (relEdgeStep s src tgt) := by
  rcases relEdgeStep_spec s src tgt with ⟨h1, h2⟩
  refine ⟨h1, _, h2, ?_⟩
  intro e he
  by_cases hc : ((nodeIds s.nodes).contains src && (nodeIds s.nodes).contains tgt) = true
  · rw [if_pos hc] at he
    have he' : e = { source := src, target := tgt } := by simpa using he
    rcases Bool.and_eq_true_iff.mp hc with ⟨hc1, hc2⟩
    rw [he']
    exact ⟨by simpa using hc1, by simpa using hc2⟩
  · rw [if_neg hc] at he
    exact absurd he (List.not_mem_nil e)

lemma buildAttackFlowEdges_stok (p : Parser) (fuel : Nat) (st st' : BuildSt)
    (h : buildAttackFlowEdges p fuel st = some st') : StOk st st' := by
  unfold buildAttackFlowEdges at h
  cases h1 : p.actions.foldlM (fun s action =>
      action.effect_refs.foldlM (followOne p.objects fuel action.id) s) st with
  | none => rw [h1] at h; exact absurd h (by simp)
  | some st1 =>
      rw [h1] at h
      have hact : StOk st st1 := by
        refine foldlM_stok _ ?_ _ st st1 h1
        intro s action s' hs
        refine foldlM_stok _ ?_ _ s s' hs
        intro s2 ref s2' hs2
        unfold followOne at hs2
        cases ho : objGet p.objects ref with
        | some nxt =>
            rw [ho] at hs2
            exact followEffectChain_stok fuel p.objects action.id nxt s2 s2' hs2
        | none =>
            rw [ho] at hs2
            have := Option.some.inj hs2
            rw [this]
            exact stok_refl s2'
      have hrel : StOk st1 (p.relationships.foldl
          (fun s rel => relEdgeStep s rel.source_ref rel.target_ref) st1) :=
        foldl_stok _ (fun s rel => relEdgeStep_stok s rel.source_ref rel.target_ref)
          p.relationships st1
      have := Option.some.inj h
      rw [← this]
      exact stok_trans hact hrel

lemma buildAFBEdges_stok (p : Parser) (st : BuildSt) :
    StOk st (buildAFBEdges p st) := by
  unfold buildAFBEdges
  exact foldl_stok _ (fun s rel => relEdgeStep_stok s rel.source rel.target)
    p.relationships st

/-! ## C9: edge endpoints always name nodes; unresolved references drop -/

/-- C9: in every successfully built graph, both endpoints of every edge are
ids of the node collection; moreover an unresolved relationship endpoint
leaves the state unchanged (the record is dropped) and an unresolved effect
reference resolves to a no-op rather than an error. -/
theorem edges_endpoints_in_nodes (d : Doc) (fuel : Nat) (p : Parser)
    (hmk : make d fuel = some (Except.ok p)) :
    (∀ e ∈ p.graph.edges,
      e.source ∈ nodeIds p.graph.nodes ∧ e.target ∈ nodeIds p.graph.nodes) ∧
    (∀ (s : BuildSt) (src tgt : Option String),
      nmGet s.nodes src = none ∨ nmGet s.nodes tgt = none →
        relEdgeStep s src tgt = s) ∧
    (∀ (objs : List JObj) (fl : Nat) (sid : Option String) (s : BuildSt)
      (ref : String), objGet objs ref = none → followOne objs fl sid s ref = some s) := by
  refine ⟨?_, ?_, ?_⟩
  · obtain ⟨fmt, hdet, hbg⟩ := make_ok_elim d fuel p hmk
    have hqf : (extractDoc d fmt).format = fmt := extractDoc_format d fmt
    rcases detectFormat_ok_cases d fmt hdet with hc | hc
    · subst hc
      obtain ⟨st, hb, hn, he⟩ := buildGraph_stix (extractDoc d "attack-flow") fuel p hqf hbg
      obtain ⟨hids, l, hl, hok⟩ :=
        buildAttackFlowEdges_stok (extractDoc d "attack-flow") fuel _ st hb
      intro e hme
      rw [he, hl] at hme
      have hmem : e ∈ l := by simpa using hme
      have hokk := hok e hmem
      rw [hn, hids]
      exact hokk
    · subst hc
      obtain ⟨hn, he⟩ := buildGraph_afb (extractDoc d "afb") fuel p hqf hbg
      obtain ⟨hids, l, hl, hok⟩ :=
        buildAFBEdges_stok (extractDoc d "afb")
          { nodes := buildNodes (extractDoc d "afb").actions, edges := [] }
      intro e hme
      rw [he, hl] at hme
      have hmem : e ∈ l := by simpa using hme
      have hokk := hok e hmem
      rw [hn, hids]
      exact hokk
  · intro s src tgt hcase
    unfold relEdgeStep
    rcases hcase with hc | hc
    · rw [hc]
    · rw [hc]
      cases nmGet s.nodes src <;> rfl
  · intro objs fl sid s ref hc
    unfold followOne
    rw [hc]

/-- A STIX bundle with two actions, one resolvable relationship and one
relationship whose target id is absent from the document. -/
def dropDoc : Doc :=
  { type := some "bundle", objects := some
      [{ id := some "A", type := some "attack-action" },
       { id := some "B", type := some "attack-action" },
       { type := some "relationship", source_ref := some "A", target_ref := some "B" },
       { type := some "relationship", source_ref := some "A", target_ref := some "zz" }] }

/-- Witness for C9 on `dropDoc`: the parse succeeds, the dangling
relationship contributes no edge, and the surviving edge's endpoints are
node ids. -/
theorem edges_endpoints_in_nodes_witness :
    ∃ p, make dropDoc 5 = some (Except.ok p) ∧
      p.graph.edges = [{ source := some "A", target := some "B" }] ∧
      (∀ e ∈ p.graph.edges,
        e.source ∈ nodeIds p.graph.nodes ∧ e.target ∈ nodeIds p.graph.nodes) :=
  ⟨_, rfl, by decide, (edges_endpoints_in_nodes dropDoc 5 _ rfl).1⟩

/-! ## C7: builder connectors and edges -/

lemma buildAFBEdges_spec (p : Parser) (st : BuildSt) :
    nodeIds (buildAFBEdges p st).nodes = nodeIds st.nodes ∧
    (buildAFBEdges p st).edges = st.edges ++ p.relationships.filterMap (fun rel =>
      if (nodeIds st.nodes).contains rel.source && (nodeIds st.nodes).contains rel.target
      then some { source := rel.source, target := rel.target } else none) := by
  unfold buildAFBEdges
  exact relEdgeStep_fold (fun r => r.source) (fun r => r.target) p.relationships st

/-- C7: for every successfully parsed builder document, the graph's edges are
exactly one edge per extracted connector record whose two endpoints resolve
among the node ids, in connector order; connectors with an unresolved
endpoint contribute nothing.  The extracted connector records are exactly the
document's `line`/`dynamic_line` objects with truthy source and target. -/
theorem afb_connector_edges (d : Doc) (fuel : Nat) (p : Parser)
    (hmk : make d fuel = some (Except.ok p)) (hfmt : p.format = "afb") :
    p.graph.edges = p.relationships.filterMap (fun rel =>
      if (nodeIds p.graph.nodes).contains rel.source &&
         (nodeIds p.graph.nodes).contains rel.target
      then some { source := rel.source, target := rel.target } else none) ∧
    p.relationships = ((d.objects.getD []).filter (fun o =>
      (o.id == some "dynamic_line" || o.id == some "line") &&
      (tstr o.source && tstr o.target))).map afbRel := by
  obtain ⟨fmt, hdet, hbg⟩ := make_ok_elim d fuel p hmk
  have hpfmt : p.format = fmt := by
    rw [(buildGraph_fields _ fuel p hbg).1, extractDoc_format]
  have hfm : fmt = "afb" := by rw [← hpfmt, hfmt]
  subst hfm
  have hqf : (extractDoc d "afb").format = "afb" := extractDoc_format d "afb"
  obtain ⟨hn, he⟩ := buildGraph_afb (extractDoc d "afb") fuel p hqf hbg
  obtain ⟨s1, s2⟩ := buildAFBEdges_spec (extractDoc d "afb")
    { nodes := buildNodes (extractDoc d "afb").actions, edges := [] }
  have hrel : p.relationships = (extractDoc d "afb").relationships :=
    (buildGraph_fields _ fuel p hbg).2.2.2.2
  constructor
  · rw [he, s2, hrel, hn, s1]
    simp
  · rw [hrel, extractDoc_afb, parseAFB_relationships]
    simp
    rfl

/-- A builder document with two actions, one resolvable connector and one
connector whose target instance is unknown. -/
def connDoc : Doc :=
  { schema := true, objects := some
      [{ id := some "action", inst := some "i1", properties := some [("name", "a")] },
       { id := some "action", inst := some "i2", properties := some [("name", "b")] },
       { id := some "line", source := some "i1", target := some "i2" },
       { id := some "dynamic_line", source := some "i1", target := some "zz" }] }

/-- Witness for C7 on `connDoc`: two connector records are extracted, exactly
one resolves, and the graph holds exactly that one edge. -/
theorem afb_connector_edges_witness :
    ∃ p, make connDoc 5 = some (Except.ok p) ∧ p.format = "afb" ∧
      (p.graph.edges = p.relationships.filterMap (fun rel =>
        if (nodeIds p.graph.nodes).contains rel.source &&
           (nodeIds p.graph.nodes).contains rel.target
        then some { source := rel.source, target := rel.target } else none) ∧
       p.relationships = ((connDoc.objects.getD []).filter (fun o =>
        (o.id == some "dynamic_line" || o.id == some "line") &&
        (tstr o.source && tstr o.target))).map afbRel) ∧
      p.graph.edges = [{ source := some "i1", target := some "i2" }] ∧
      p.relationships.length = 2 :=
  ⟨_, rfl, rfl, afb_connector_edges connDoc 5 _ rfl rfl, by decide, by decide⟩

/-! ## C8: STIX node bijection with action objects -/

lemma jsOrO_tstr (a b : Option String) (h : tstr a = true) : jsOrO a b = a := by
  unfold jsOrO
  simp [h]

lemma buildNode_id (a : JObj) (i : Nat) : (buildNode a i).id = jsOrO a.id a.inst := rfl

lemma buildNodes_ids (actions : List JObj) :
    nodeIds (buildNodes actions) = actions.map (fun a => jsOrO a.id a.inst) := by
  unfold buildNodes nodeIds
  rw [List.map_map]
  have h1 : ((fun n => n.id) ∘ (fun pr : Nat × JObj => buildNode pr.2 pr.1)) =
      (fun pr : Nat × JObj => jsOrO pr.2.id pr.2.inst) := by
    funext pr
    rfl
  rw [h1]
  have h2 : actions.enum.map (fun pr : Nat × JObj => jsOrO pr.2.id pr.2.inst) =
      (actions.enum.map Prod.snd).map (fun a => jsOrO a.id a.inst) := by
    rw [List.map_map]
    rfl
  rw [h2, List.enum_map_snd]

/-- C8: for every successfully parsed STIX document whose attack-action
objects carry truthy, pairwise-distinct ids (STIX validity), the graph has
exactly one node per action object, the node id column equals the action id
column (same order), and node ids are pairwise distinct. -/
theorem stix_nodes_match_actions (d : Doc) (fuel : Nat) (p : Parser)
    (hmk : make d fuel = some (Except.ok p)) (hfmt : p.format = "attack-flow")
    (hval : ∀ o ∈ (d.objects.getD []).filter (fun o => o.type == some "attack-action"),
      tstr o.id = true)
    (hnd : (((d.objects.getD []).filter
      (fun o => o.type == some "attack-action")).map (fun o => o.id)).Nodup) :
    p.graph.nodes.length =
      ((d.objects.getD []).filter (fun o => o.type == some "attack-action")).length ∧
    nodeIds p.graph.nodes =
      ((d.objects.getD []).filter (fun o => o.type == some "attack-action")).map
        (fun o => o.id) ∧
    (nodeIds p.graph.nodes).Nodup := by
  obtain ⟨fmt, hdet, hbg⟩ := make_ok_elim d fuel p hmk
  have hpfmt : p.format = fmt := by
    rw [(buildGraph_fields _ fuel p hbg).1, extractDoc_format]
  have hfm : fmt = "attack-flow" := by rw [← hpfmt, hfmt]
  subst hfm
  have hqf := extractDoc_format d "attack-flow"
  obtain ⟨st, hb, hn, he⟩ := buildGraph_stix _ fuel p hqf hbg
  obtain ⟨hids, _, _, _⟩ := buildAttackFlowEdges_stok _ fuel _ st hb
  have hacts : (extractDoc d "attack-flow").actions =
      (d.objects.getD []).filter (fun o => o.type == some "attack-action") := by
    rw [extractDoc_stix]
    unfold parseAttackFlow
    rw [foldl_stix_actions]
    simp
    rfl
  have hidseq : nodeIds p.graph.nodes =
      ((d.objects.getD []).filter (fun o => o.type == some "attack-action")).map
        (fun o => o.id) := by
    rw [hn, hids]
    show nodeIds (buildNodes (extractDoc d "attack-flow").actions) = _
    rw [buildNodes_ids, hacts]
    apply List.map_congr_left
    intro a ha
    exact jsOrO_tstr _ _ (hval a ha)
  refine ⟨?_, hidseq, hidseq ▸ hnd⟩
  have h1 : p.graph.nodes.length = (nodeIds p.graph.nodes).length := by
    simp [nodeIds]
  rw [h1, hidseq, List.length_map]

/-- A STIX bundle with two distinct actions. -/
def twoActDoc : Doc :=
  { type := some "bundle", objects := some
      [{ id := some "A", type := some "attack-action", technique_id := some "T1190" },
       { id := some "B", type := some "attack-action", technique_id := some "T1059" }] }

/-- Witness for C8 on `twoActDoc`. -/
theorem stix_nodes_match_actions_witness :
    ∃ p, make twoActDoc 5 = some (Except.ok p) ∧ p.format = "attack-flow" ∧
      (p.graph.nodes.length =
        ((twoActDoc.objects.getD []).filter
          (fun o => o.type == some "attack-action")).length ∧
       nodeIds p.graph.nodes =
        ((twoActDoc.objects.getD []).filter
          (fun o => o.type == some "attack-action")).map (fun o => o.id) ∧
       (nodeIds p.graph.nodes).Nodup) ∧
      p.graph.nodes.length = 2 :=
  ⟨_, rfl, rfl,
   stix_nodes_match_actions twoActDoc 5 _ rfl rfl (by decide) (by decide), by decide⟩

/-! ## C3 machinery: decomposition of a successful edge-resolution run -/

lemma stok_mem {s s' : BuildSt} (h : StOk s s') {e : Edge} (he : e ∈ s.edges) :
    e ∈ s'.edges := by
  obtain ⟨_, l, hl, _⟩ := h
  rw [hl]
  exact List.mem_append.mpr (Or.inl he)

lemma followOne_stok (objs : List JObj) (fuel : Nat) (sid : Option String) :
    ∀ (s : BuildSt) (ref : String) (s' : BuildSt),
      followOne objs fuel sid s ref = some s' → StOk s s' := by
  intro s ref s' h
  unfold followOne at h
  cases ho : objGet objs ref with
  | some nxt =>
      rw [ho] at h
      exact followEffectChain_stok fuel objs sid nxt s s' h
  | none =>
      rw [ho] at h
      rw [Option.some.inj h]
      exact stok_refl s'

lemma effectRefsFold_stok (objs : List JObj) (fuel : Nat) (sid : Option String)
    (refs : List String) (s s' : BuildSt)
    (h : refs.foldlM (followOne objs fuel sid) s = some s') : StOk s s' :=
  foldlM_stok _ (followOne_stok objs fuel sid) refs s s' h

lemma foldlM_append_cons {α : Type} (f : BuildSt → α → Option BuildSt)
    (l1 : List α) (x : α) (l2 : List α) :
    ∀ (st st' : BuildSt), (l1 ++ x :: l2).foldlM f st = some st' →
    ∃ s1 s2, l1.foldlM f st = some s1 ∧ f s1 x = some s2 ∧
      l2.foldlM f s2 = some st' := by
  induction l1 with
  | nil =>
      intro st st' h
      rw [List.nil_append, List.foldlM_cons] at h
      cases hx : f st x with
      | none => rw [hx] at h; exact absurd h (by simp)
      | some s2 =>
          rw [hx] at h
          simp only [Option.bind_eq_bind, Option.some_bind] at h
          exact ⟨st, s2, by simp, hx, h⟩
  | cons y l1 ih =>
      intro st st' h
      rw [List.cons_append, List.foldlM_cons] at h
      cases hy : f st y with
      | none => rw [hy] at h; exact absurd h (by simp)
      | some sy =>
          rw [hy] at h
          simp only [Option.bind_eq_bind, Option.some_bind] at h
          obtain ⟨s1, s2, h1, h2, h3⟩ := ih sy st' h
          refine ⟨s1, s2, ?_, h2, h3⟩
          rw [List.foldlM_cons, hy]
          simpa using h1

lemma fEC_succ_of_some (objs : List JObj) (fuel : Nat) (sid : Option String)
    (node : JObj) (s s' : BuildSt)
    (h : followEffectChain objs fuel sid node s = some s') :
    ∃ fl, fuel = fl + 1 := by
  cases fuel with
  | zero => exact absurd h (by simp [followEffectChain])
  | succ fl => exact ⟨fl, rfl⟩

lemma fEC_condition_elim (objs : List JObj) (fl : Nat) (sid : Option String)
    (Cobj : JObj) (s s' : BuildSt) (hty : Cobj.type = some "attack-condition")
    (hs : followEffectChain objs (fl + 1) sid Cobj s = some s') :
    ∃ u, Cobj.on_true_refs.foldlM (followOne objs fl sid) s = some u ∧
      Cobj.on_false_refs.foldlM (followOne objs fl sid) u = some s' := by
  simp only [followEffectChain] at hs
  have h1 : (Cobj.type == some "attack-condition") = true := by simp [hty]
  rw [h1] at hs
  simp only [if_true] at hs
  have hconv : (fun (s : BuildSt) (ref : String) =>
      match objGet objs ref with
      | some nextNode => followEffectChain objs fl sid nextNode s
      | none => some s) = followOne objs fl sid := rfl
  rw [hconv] at hs
  cases hfold : Cobj.on_true_refs.foldlM (followOne objs fl sid) s with
  | none => rw [hfold] at hs; exact absurd hs (by simp)
  | some u =>
      rw [hfold] at hs
      exact ⟨u, rfl, hs⟩

lemma fEC_action_push (objs : List JObj) (fl : Nat) (sid : Option String)
    (Aobj : JObj) (s s' : BuildSt) (hty : Aobj.type = some "attack-action")
    (hs : followEffectChain objs (fl + 1) sid Aobj s = some s')
    (hsid : sid ∈ nodeIds s.nodes) (haid : Aobj.id ∈ nodeIds s.nodes) :
    ({ source := sid, target := Aobj.id } : Edge) ∈ s'.edges := by
  simp only [followEffectChain] at hs
  have h1 : (Aobj.type == some "attack-condition") = false := by simp [hty]
  have h2 : (Aobj.type == some "attack-operator") = false := by simp [hty]
  have h3 : (Aobj.type == some "attack-action") = true := by simp [hty]
  rw [h1] at hs
  simp only [Bool.false_eq_true, if_false] at hs
  rw [h2] at hs
  simp only [Bool.false_eq_true, if_false] at hs
  rw [h3] at hs
  simp only [if_true] at hs
  obtain ⟨source, hsource⟩ :=
    Option.isSome_iff_exists.mp ((nmGet_isSome_iff _ _).mpr hsid)
  obtain ⟨target, htarget⟩ :=
    Option.isSome_iff_exists.mp ((nmGet_isSome_iff _ _).mpr haid)
  rw [hsource, htarget] at hs
  rw [← Option.some.inj hs]
  simp

/-- C3: resolving a condition between actions yields both direct edges and no
trace of the condition.  For every successfully parsed STIX document in which
action `S` has an effect reference to condition `C`, whose `on_true_refs`
reach action `A` and `on_false_refs` reach action `B` (all with truthy ids,
and no action record bearing the condition's id), the graph contains the
direct edges (S,A) and (S,B), the condition id is not a node id, and no edge
endpoint names the condition. -/
theorem condition_collapses_to_direct_edges (d : Doc) (fuel : Nat) (p : Parser)
    (hmk : make d fuel = some (Except.ok p)) (hfmt : p.format = "attack-flow")
    (S C A B : JObj) (cid aRef bRef : String)
    (hS : S ∈ p.actions) (hSid : tstr S.id = true)
    (hSref : cid ∈ S.effect_refs)
    (hC : objGet p.objects cid = some C)
    (hCtype : C.type = some "attack-condition")
    (hCtrue : aRef ∈ C.on_true_refs) (hCfalse : bRef ∈ C.on_false_refs)
    (hA : objGet p.objects aRef = some A) (hAtype : A.type = some "attack-action")
    (hAmem : A ∈ p.actions) (hAid : tstr A.id = true)
    (hB : objGet p.objects bRef = some B) (hBtype : B.type = some "attack-action")
    (hBmem : B ∈ p.actions) (hBid : tstr B.id = true)
    (hCact : ∀ a ∈ p.actions, jsOrO a.id a.inst ≠ some cid) :
    ({ source := S.id, target := A.id } : Edge) ∈ p.graph.edges ∧
    ({ source := S.id, target := B.id } : Edge) ∈ p.graph.edges ∧
    some cid ∉ nodeIds p.graph.nodes ∧
    (∀ e ∈ p.graph.edges, e.source ≠ some cid ∧ e.target ≠ some cid) := by
  obtain ⟨fmt, hdet, hbg⟩ := make_ok_elim d fuel p hmk
  have hpfmt : p.format = fmt := by
    rw [(buildGraph_fields _ fuel p hbg).1, extractDoc_format]
  have hfm : fmt = "attack-flow" := by rw [← hpfmt, hfmt]
  subst hfm
  have hqf := extractDoc_format d "attack-flow"
  obtain ⟨st, hb, hn, he⟩ := buildGraph_stix _ fuel p hqf hbg
  have hstok := buildAttackFlowEdges_stok _ fuel _ st hb
  have hactseq : p.actions = (extractDoc d "attack-flow").actions :=
    (buildGraph_fields _ fuel p hbg).2.2.2.1
  have hobjseq : p.objects = (extractDoc d "attack-flow").objects :=
    (buildGraph_fields _ fuel p hbg).2.1
  rw [hactseq] at hS hAmem hBmem hCact
  rw [hobjseq] at hC hA hB
  -- membership of truthy action ids among the built node ids
  have hmemids : ∀ a ∈ (extractDoc d "attack-flow").actions, tstr a.id = true →
      a.id ∈ nodeIds (buildNodes (extractDoc d "attack-flow").actions) := by
    intro a ha hta
    rw [buildNodes_ids]
    exact List.mem_map.mpr ⟨a, ha, jsOrO_tstr _ _ hta⟩
  -- the condition id names no node
  have hcidnot : some cid ∉ nodeIds p.graph.nodes := by
    rw [hn, hstok.1]
    show some cid ∉ nodeIds (buildNodes (extractDoc d "attack-flow").actions)
    rw [buildNodes_ids]
    intro hmem
    obtain ⟨a, ha, hae⟩ := List.mem_map.mp hmem
    exact hCact a ha hae
  -- open the build
  unfold buildAttackFlowEdges at hb
  split at hb
  next hfold => exact absurd hb (by simp)
  next st1 hfold =>
    have hst : st = (extractDoc d "attack-flow").relationships.foldl
        (fun s rel => relEdgeStep s rel.source_ref rel.target_ref) st1 :=
      (Option.some.inj hb).symm
    have hrelst : StOk st1 st := by
      rw [hst]
      exact foldl_stok _
        (fun s (rel : JObj) => relEdgeStep_stok s rel.source_ref rel.target_ref) _ st1
    -- split the actions fold at S
    obtain ⟨l1, l2, hsplit⟩ := List.append_of_mem hS
    rw [hsplit] at hfold
    obtain ⟨s1, s2, hpre, hSstep, hsuf⟩ := foldlM_append_cons _ l1 S l2 _ _ hfold
    have hstepProp : ∀ (s : BuildSt) (a : JObj) (s' : BuildSt),
        a.effect_refs.foldlM (followOne (extractDoc d "attack-flow").objects fuel a.id) s =
          some s' → StOk s s' :=
      fun s a s' hs => effectRefsFold_stok _ fuel a.id a.effect_refs s s' hs
    have hsk1 : StOk
        ({ nodes := buildNodes (l1 ++ S :: l2),
           edges := [] } : BuildSt) s1 := foldlM_stok _ hstepProp l1 _ s1 hpre
    -- split S's effect references at cid
    obtain ⟨r1, r2, hrsplit⟩ := List.append_of_mem hSref
    rw [hrsplit] at hSstep
    obtain ⟨t1, t2, htpre, hcidstep, htsuf⟩ := foldlM_append_cons _ r1 cid r2 _ _ hSstep
    have hsk2 : StOk s1 t1 := effectRefsFold_stok _ fuel S.id r1 s1 t1 htpre
    unfold followOne at hcidstep
    rw [hC] at hcidstep
    obtain ⟨fl, hfl⟩ := fEC_succ_of_some _ _ _ _ _ _ hcidstep
    subst hfl
    obtain ⟨u, htrue, hfalse⟩ := fEC_condition_elim _ fl S.id C t1 t2 hCtype hcidstep
    -- ids at every intermediate state equal the initial node ids
    have hids0 : nodeIds t1.nodes =
        nodeIds (buildNodes (extractDoc d "attack-flow").actions) := by
      have h := (stok_trans hsk1 hsk2).1
      rw [h]
      show nodeIds (buildNodes (l1 ++ S :: l2)) = _
      rw [← hsplit]
    -- === edge (S, A) ===
    obtain ⟨a1, a2, harsplit⟩ := List.append_of_mem hCtrue
    rw [harsplit] at htrue
    obtain ⟨v1, v2, hvpre, hAstep, hvsuf⟩ := foldlM_append_cons _ a1 aRef a2 _ _ htrue
    have hsk3 : StOk t1 v1 := effectRefsFold_stok _ fl S.id a1 t1 v1 hvpre
    unfold followOne at hAstep
    rw [hA] at hAstep
    obtain ⟨fm, hfm2⟩ := fEC_succ_of_some _ _ _ _ _ _ hAstep
    rw [hfm2] at hAstep
    have hv1ids : nodeIds v1.nodes =
        nodeIds (buildNodes (extractDoc d "attack-flow").actions) := by
      rw [hsk3.1, hids0]
    have hedgeA : ({ source := S.id, target := A.id } : Edge) ∈ v2.edges := by
      refine fEC_action_push _ fm S.id A v1 v2 hAtype hAstep ?_ ?_
      · rw [hv1ids]
        exact hmemids S hS hSid
      · rw [hv1ids]
        exact hmemids A hAmem hAid
    -- thread the A edge to the final state
    have hpA1 : StOk v2 u := effectRefsFold_stok _ fl S.id a2 v2 u hvsuf
    have hpA2 : StOk u t2 := effectRefsFold_stok _ fl S.id C.on_false_refs u t2 hfalse
    have hpA3 : StOk t2 s2 := effectRefsFold_stok _ (fl + 1) S.id r2 t2 s2 htsuf
    have hpA4 : StOk s2 st1 := foldlM_stok _ hstepProp l2 s2 st1 hsuf
    have hedgeAfinal : ({ source := S.id, target := A.id } : Edge) ∈ p.graph.edges := by
      rw [he]
      exact stok_mem hrelst (stok_mem hpA4 (stok_mem hpA3 (stok_mem hpA2
        (stok_mem hpA1 hedgeA))))
    -- === edge (S, B) ===
    obtain ⟨b1, b2, hbrsplit⟩ := List.append_of_mem hCfalse
    rw [hbrsplit] at hfalse
    obtain ⟨w1, w2, hwpre, hBstep, hwsuf⟩ := foldlM_append_cons _ b1 bRef b2 _ _ hfalse
    have hsk4 : StOk t1 u := effectRefsFold_stok _ fl S.id (a1 ++ aRef :: a2) t1 u htrue
    have hsk5 : StOk u w1 := effectRefsFold_stok _ fl S.id b1 u w1 hwpre
    unfold followOne at hBstep
    rw [hB] at hBstep
    obtain ⟨fm2, hfm3⟩ := fEC_succ_of_some _ _ _ _ _ _ hBstep
    rw [hfm3] at hBstep
    have hw1ids : nodeIds w1.nodes =
        nodeIds (buildNodes (extractDoc d "attack-flow").actions) := by
      rw [hsk5.1, hsk4.1, hids0]
    have hedgeB : ({ source := S.id, target := B.id } : Edge) ∈ w2.edges := by
      refine fEC_action_push _ fm2 S.id B w1 w2 hBtype hBstep ?_ ?_
      · rw [hw1ids]
        exact hmemids S hS hSid
      · rw [hw1ids]
        exact hmemids B hBmem hBid
    have hpB1 : StOk w2 t2 := effectRefsFold_stok _ fl S.id b2 w2 t2 hwsuf
    have hedgeBfinal : ({ source := S.id, target := B.id } : Edge) ∈ p.graph.edges := by
      rw [he]
      exact stok_mem hrelst (stok_mem hpA4 (stok_mem hpA3 (stok_mem hpB1 hedgeB)))
    -- === endpoints never name the condition ===
    refine ⟨hedgeAfinal, hedgeBfinal, hcidnot, ?_⟩
    intro e hme
    obtain ⟨hids, l, hl, hok⟩ := hstok
    rw [he, hl] at hme
    have hmem : e ∈ l := by simpa using hme
    obtain ⟨hsrc, htgt⟩ := hok e hmem
    constructor
    · intro hcontra
      apply hcidnot
      rw [hn, hids]
      rw [← hcontra]
      exact hsrc
    · intro hcontra
      apply hcidnot
      rw [hn, hids]
      rw [← hcontra]
      exact htgt

/-- The concrete condition-branching bundle for the C3 witness. -/
def condS : JObj :=
  { id := some "S", type := some "attack-action", effect_refs := ["cond"] }

/-- Action A, the true-branch target. -/
def condA : JObj := { id := some "A", type := some "attack-action" }

/-- Action B, the false-branch target. -/
def condB : JObj := { id := some "B", type := some "attack-action" }

/-- The condition routing S to A (true) and B (false). -/
def condC : JObj :=
  { id := some "cond", type := some "attack-condition",
    on_true_refs := ["A"], on_false_refs := ["B"] }

/-- The bundle containing the three actions and the condition. -/
def condDoc : Doc :=
  { type := some "bundle", objects := some [condS, condA, condB, condC] }

/-- Witness for C3 on `condDoc`. -/
theorem condition_collapses_to_direct_edges_witness :
    ∃ p, make condDoc 10 = some (Except.ok p) ∧
      (({ source := condS.id, target := condA.id } : Edge) ∈ p.graph.edges ∧
       ({ source := condS.id, target := condB.id } : Edge) ∈ p.graph.edges ∧
       some "cond" ∉ nodeIds p.graph.nodes ∧
       (∀ e ∈ p.graph.edges, e.source ≠ some "cond" ∧ e.target ≠ some "cond")) :=
  ⟨_, rfl,
   condition_collapses_to_direct_edges condDoc 10 _ rfl (by decide)
     condS condC condA condB "cond" "A" "B"
     (by decide) (by decide) (by decide) (by decide) (by decide) (by decide)
     (by decide) (by decide) (by decide) (by decide) (by decide) (by decide)
     (by decide) (by decide) (by decide) (by decide)⟩

/-! ## C2 machinery: the visit recursion is total and emits each node once -/

/-- Graph node ids not yet visited: the termination measure of `visit`. -/
def unvis (nodes : List Node) (v : List (Option String)) : Nat :=
  ((nodeIds nodes).filter (fun i => !(v.contains i))).length

lemma unvis_le (nodes : List Node) (v : List (Option String)) :
    unvis nodes v ≤ nodes.length := by
  unfold unvis
  calc ((nodeIds nodes).filter (fun i => !(v.contains i))).length
      ≤ (nodeIds nodes).length := List.length_filter_le _ _
    _ = nodes.length := by simp [nodeIds]

lemma filter_imp_length_le {α : Type} (l : List α) (p q : α → Bool)
    (himp : ∀ x, q x = true → p x = true) :
    (l.filter q).length ≤ (l.filter p).length := by
  have h1 : l.filter q = List.filter q (l.filter p) := by
    rw [List.filter_filter]
    apply List.filter_congr
    intro x _
    cases hq : q x
    · simp
    · simp [himp x hq]
  rw [h1]
  exact List.length_filter_le _ _

lemma unvis_mono (nodes : List Node) (v w : List (Option String))
    (hsub : ∀ i ∈ v, i ∈ w) : unvis nodes w ≤ unvis nodes v := by
  apply filter_imp_length_le
  intro x hx
  have hxw : x ∉ w := by simpa using hx
  cases hc : v.contains x
  · simp
  · exact absurd (hsub x (by simpa using hc)) hxw

lemma unvis_strict (nodes : List Node) (v : List (Option String))
    (id : Option String) (hid : id ∈ nodeIds nodes) (hnv : id ∉ v) :
    unvis nodes (id :: v) < unvis nodes v := by
  have himp : ∀ x, (!((id :: v).contains x)) = true → (!(v.contains x)) = true := by
    intro x hx
    have hxc : x ∉ id :: v := by simpa using hx
    cases hc : v.contains x
    · simp
    · exact absurd (List.mem_cons_of_mem id (by simpa using hc)) hxc
  have h1 : (nodeIds nodes).filter (fun i => !((id :: v).contains i)) =
      List.filter (fun i => !((id :: v).contains i))
        ((nodeIds nodes).filter (fun i => !(v.contains i))) := by
    rw [List.filter_filter]
    apply List.filter_congr
    intro x _
    cases hq : (!((id :: v).contains x))
    · simp [hq]
    · have h2 := himp x hq
      simp [hq]
      simpa using h2
  unfold unvis
  rw [h1]
  apply List.length_filter_lt_length_iff_exists.mpr
  refine ⟨id, ?_, ?_⟩
  · rw [List.mem_filter]
    refine ⟨hid, ?_⟩
    cases hc : v.contains id
    · simp
    · exact absurd (by simpa using hc) hnv
  · simp

/-- The visible change a visit makes: it pushes a block of fresh, distinct
ids onto the visited list and a block onto the sequence, and the nodes in the
new sequence block are, up to order, exactly the node-map images of the new
ids. -/
def VDelta (nodes : List Node) (st st' : VState) : Prop :=
  ∃ newIds newSeq,
    st'.visited = newIds ++ st.visited ∧
    st'.seq = newSeq ++ st.seq ∧
    newIds.Nodup ∧
    (∀ i ∈ newIds, i ∉ st.visited) ∧
    (newSeq.filterMap (fun x => x)).Perm
      (newIds.filterMap (fun i => nmGet nodes i))

lemma vdelta_refl (nodes : List Node) (st : VState) : VDelta nodes st st :=
  ⟨[], [], by simp, by simp, by simp, by simp, by simp⟩

lemma vdelta_trans {nodes : List Node} {st st1 st' : VState}
    (h1 : VDelta nodes st st1) (h2 : VDelta nodes st1 st') :
    VDelta nodes st st' := by
  obtain ⟨n1, s1, hv1, hs1, hd1, hf1, hp1⟩ := h1
  obtain ⟨n2, s2, hv2, hs2, hd2, hf2, hp2⟩ := h2
  refine ⟨n2 ++ n1, s2 ++ s1, ?_, ?_, ?_, ?_, ?_⟩
  · rw [hv2, hv1, List.append_assoc]
  · rw [hs2, hs1, List.append_assoc]
  · rw [List.nodup_append]
    refine ⟨hd2, hd1, ?_⟩
    rw [List.disjoint_left]
    intro a ha2 ha1
    exact hf2 a ha2 (by rw [hv1]; exact List.mem_append.mpr (Or.inl ha1))
  · intro i hi
    rcases List.mem_append.mp hi with h | h
    · intro hiv
      exact hf2 i h (by rw [hv1]; exact List.mem_append.mpr (Or.inr hiv))
    · exact hf1 i h
  · rw [List.filterMap_append, List.filterMap_append]
    exact hp2.append hp1

lemma vdelta_visited_mono {nodes : List Node} {st st' : VState}
    (h : VDelta nodes st st') : ∀ i ∈ st.visited, i ∈ st'.visited := by
  obtain ⟨n1, _, hv, _⟩ := h
  intro i hi
  rw [hv]
  exact List.mem_append.mpr (Or.inr hi)

lemma visit_total (nodes : List Node) : ∀ fuel : Nat,
    (∀ (st : VState) (id : Option String), unvis nodes st.visited < fuel →
      ∃ st', visitF nodes fuel id st = some st' ∧ VDelta nodes st st' ∧
        id ∈ st'.visited) ∧
    (∀ (ids : List (Option String)) (st : VState), unvis nodes st.visited < fuel →
      ∃ st', ids.foldlM (fun s c => visitF nodes fuel c s) st = some st' ∧
        VDelta nodes st st') := by
  intro fuel
  induction fuel with
  | zero =>
      constructor
      · intro st id h
        exact absurd h (Nat.not_lt_zero _)
      · intro ids st h
        exact absurd h (Nat.not_lt_zero _)
  | succ n ih =>
      have hF : ∀ (st : VState) (id : Option String),
          unvis nodes st.visited < n + 1 →
          ∃ st', visitF nodes (n + 1) id st = some st' ∧ VDelta nodes st st' ∧
            id ∈ st'.visited := by
        intro st id hlt
        by_cases hvis : id ∈ st.visited
        · refine ⟨st, ?_, vdelta_refl nodes st, hvis⟩
          simp [visitF, hvis]
        · cases hnm : nmGet nodes id with
          | none =>
              refine ⟨{ visited := id :: st.visited, seq := none :: st.seq }, ?_, ?_, ?_⟩
              · simp [visitF, hvis, hnm]
              · exact ⟨[id], [none], rfl, rfl, by simp, by simpa using hvis,
                  by simp [hnm]⟩
              · simp
          | some node =>
              have hidmem : id ∈ nodeIds nodes :=
                (nmGet_isSome_iff nodes id).mp (by simp [hnm])
              have hlt1 : unvis nodes (id :: st.visited) < n := by
                have hs := unvis_strict nodes st.visited id hidmem hvis
                omega
              obtain ⟨st2, hst2, hd2⟩ :=
                ih.2 node.children { st with visited := id :: st.visited } hlt1
              obtain ⟨n2, s2, hv2, hs2, hd2', hf2, hp2⟩ := hd2
              have hidin : id ∈ st2.visited := by
                rw [hv2]
                exact List.mem_append.mpr (Or.inr (List.mem_cons_self _ _))
              refine ⟨{ st2 with seq := some node :: st2.seq }, ?_, ?_, hidin⟩
              · simp only [visitF]
                rw [if_neg hvis, hnm]
                show (match List.foldlM (fun s c => visitF nodes n c s)
                    ({ visited := id :: st.visited, seq := st.seq } : VState)
                    node.children with
                  | none => none
                  | some st2 =>
                      some ({ visited := st2.visited,
                              seq := some node :: st2.seq } : VState)) =
                  some ({ visited := st2.visited, seq := some node :: st2.seq } : VState)
                rw [hst2]
              · refine ⟨n2 ++ [id], some node :: s2, ?_, ?_, ?_, ?_, ?_⟩
                · show st2.visited = (n2 ++ [id]) ++ st.visited
                  rw [hv2]
                  simp
                · show some node :: st2.seq = (some node :: s2) ++ st.seq
                  rw [hs2]
                  simp
                · rw [List.nodup_append]
                  refine ⟨hd2', by simp, ?_⟩
                  rw [List.disjoint_left]
                  intro a ha2 ha1
                  have : a = id := by simpa using ha1
                  subst this
                  exact hf2 a ha2 (List.mem_cons_self _ _)
                · intro i hi
                  rcases List.mem_append.mp hi with h | h
                  · intro hiv
                    exact hf2 i h (List.mem_cons_of_mem _ hiv)
                  · have : i = id := by simpa using h
                    subst this
                    exact hvis
                · rw [List.filterMap_append]
                  have h1 : ([id].filterMap (fun i => nmGet nodes i)) = [node] := by
                    simp [hnm]
                  rw [h1]
                  have h2 : ((some node :: s2).filterMap (fun x => x)) =
                      node :: s2.filterMap (fun x => x) := by simp
                  rw [h2]
                  exact (hp2.cons node).trans
                    (List.perm_append_singleton node _).symm
      have hL : ∀ (ids : List (Option String)) (st : VState),
          unvis nodes st.visited < n + 1 →
          ∃ st', ids.foldlM (fun s c => visitF nodes (n + 1) c s) st = some st' ∧
            VDelta nodes st st' := by
        intro ids
        induction ids with
        | nil =>
            intro st _
            exact ⟨st, by simp, vdelta_refl nodes st⟩
        | cons c ids ihL =>
            intro st h
            obtain ⟨st1, h1, hd1, _⟩ := hF st c h
            have h2 : unvis nodes st1.visited < n + 1 :=
              lt_of_le_of_lt
                (unvis_mono nodes st.visited st1.visited (vdelta_visited_mono hd1)) h
            obtain ⟨st', h3, hd3⟩ := ihL st1 h2
            refine ⟨st', ?_, vdelta_trans hd1 hd3⟩
            rw [List.foldlM_cons, h1]
            simpa using h3
      exact ⟨hF, hL⟩

lemma visitF_top (p : Parser) (st : VState) (id : Option String) :
    ∃ st', visitF p.graph.nodes (p.graph.nodes.length + 1) id st = some st' ∧
      VDelta p.graph.nodes st st' ∧ id ∈ st'.visited :=
  (visit_total p.graph.nodes (p.graph.nodes.length + 1)).1 st id
    (Nat.lt_succ_of_le (unvis_le _ _))

lemma foldlM_vdelta {α : Type} (nodes : List Node) (g : VState → α → Option VState)
    (hg : ∀ s x, ∃ s', g s x = some s' ∧ VDelta nodes s s') :
    ∀ (l : List α) (st : VState),
      ∃ st', l.foldlM g st = some st' ∧ VDelta nodes st st' := by
  intro l
  induction l with
  | nil => intro st; exact ⟨st, by simp, vdelta_refl nodes st⟩
  | cons x l ih =>
      intro st
      obtain ⟨s1, h1, hd1⟩ := hg st x
      obtain ⟨st', h2, hd2⟩ := ih s1
      exact ⟨st', by rw [List.foldlM_cons, h1]; simpa using h2,
        vdelta_trans hd1 hd2⟩

lemma seqPhaseStarts_total (p : Parser) (st : VState) :
    ∃ st', seqPhaseStarts p (p.graph.nodes.length + 1) st = some st' ∧
      VDelta p.graph.nodes st st' := by
  unfold seqPhaseStarts
  cases haf : p.attackFlow with
  | none => exact ⟨st, rfl, vdelta_refl _ st⟩
  | some flow =>
      apply foldlM_vdelta
      intro s startRef
      cases ho : objGet p.objects startRef with
      | none => exact ⟨s, rfl, vdelta_refl _ s⟩
      | some startNode =>
          by_cases hty : (startNode.type == some "attack-action") = true
          · obtain ⟨s', hs', hd', _⟩ := visitF_top p s (some startRef)
            refine ⟨s', ?_, hd'⟩
            show (if (startNode.type == some "attack-action") = true then
                visitF p.graph.nodes (p.graph.nodes.length + 1) (some startRef) s
              else some s) = some s'
            rw [if_pos hty]
            exact hs'
          · refine ⟨s, ?_, vdelta_refl _ s⟩
            show (if (startNode.type == some "attack-action") = true then
                visitF p.graph.nodes (p.graph.nodes.length + 1) (some startRef) s
              else some s) = some s
            rw [if_neg hty]

lemma seqPhaseRoots_total (p : Parser) (st : VState) :
    ∃ st', seqPhaseRoots p (p.graph.nodes.length + 1) st = some st' ∧
      VDelta p.graph.nodes st st' := by
  unfold seqPhaseRoots
  by_cases hc : (p.format == "afb" || st.seq.isEmpty) = true
  · rw [if_pos hc]
    apply foldlM_vdelta
    intro s node
    obtain ⟨s', hs', hd', _⟩ := visitF_top p s node.id
    exact ⟨s', hs', hd'⟩
  · rw [if_neg hc]
    exact ⟨st, rfl, vdelta_refl _ st⟩

lemma seqRest_total (p : Parser) : ∀ (l : List Node) (st : VState),
    ∃ st', l.foldlM (fun s node => if s.visited.contains node.id then some s
        else visitF p.graph.nodes (p.graph.nodes.length + 1) node.id s) st =
          some st' ∧
      VDelta p.graph.nodes st st' ∧ ∀ n ∈ l, n.id ∈ st'.visited := by
  intro l
  induction l with
  | nil =>
      intro st
      exact ⟨st, by simp, vdelta_refl _ st, by simp⟩
  | cons node l ih =>
      intro st
      by_cases hc : (st.visited.contains node.id) = true
      · obtain ⟨st', h2, hd2, hcov⟩ := ih st
        refine ⟨st', ?_, hd2, ?_⟩
        · rw [List.foldlM_cons, if_pos hc]
          simpa using h2
        · intro m hm
          rcases List.mem_cons.mp hm with h | h
          · subst h
            exact vdelta_visited_mono hd2 _ (by simpa using hc)
          · exact hcov m h
      · obtain ⟨st1, h1, hd1, hin⟩ := visitF_top p st node.id
        obtain ⟨st', h2, hd2, hcov⟩ := ih st1
        refine ⟨st', ?_, vdelta_trans hd1 hd2, ?_⟩
        · rw [List.foldlM_cons, if_neg hc, h1]
          simpa using h2
        · intro m hm
          rcases List.mem_cons.mp hm with h | h
          · subst h
            exact vdelta_visited_mono hd2 _ hin
          · exact hcov m h

lemma seqPhaseRest_total (p : Parser) (st : VState) :
    ∃ st', seqPhaseRest p (p.graph.nodes.length + 1) st = some st' ∧
      VDelta p.graph.nodes st st' ∧ ∀ n ∈ p.graph.nodes, n.id ∈ st'.visited :=
  seqRest_total p p.graph.nodes st

lemma nmGet_of_nodup (ns : List Node) (hnd : (nodeIds ns).Nodup) (n : Node)
    (hn : n ∈ ns) : nmGet ns n.id = some n := by
  have hsome : (nmGet ns n.id).isSome :=
    (nmGet_isSome_iff _ _).mpr (List.mem_map.mpr ⟨n, hn, rfl⟩)
  obtain ⟨m, hm⟩ := Option.isSome_iff_exists.mp hsome
  obtain ⟨hmem, hid⟩ := nmGet_eq_some _ _ _ hm
  have : m = n := List.inj_on_of_nodup_map hnd hmem hn hid
  rw [hm, this]

/-- C2: on every graph whose node ids are distinct (the data model declares
ids unique within a graph), `getActionSequence` terminates — the chosen depth
bound `nodes.length + 1` always suffices — and its output is a permutation of
the node collection: every node appears exactly once, whatever the edges
(cycles included) and whatever is reachable from declared starts.  Re-running
it on the same parser state returns the identical output. -/
theorem getActionSequence_terminates_once_each (p : Parser)
    (hnd : (nodeIds p.graph.nodes).Nodup) :
    ∃ s, getActionSequence p = some s ∧ s.Perm p.graph.nodes ∧
      getActionSequence p = getActionSequence p := by
  obtain ⟨st1, h1, hd1⟩ := seqPhaseStarts_total p { visited := [], seq := [] }
  obtain ⟨st2, h2, hd2⟩ := seqPhaseRoots_total p st1
  obtain ⟨st3, h3, hd3, hcov⟩ := seqPhaseRest_total p st2
  refine ⟨st3.seq.filterMap (fun x => x), ?_, ?_, rfl⟩
  · simp only [getActionSequence, h1, h2, h3]
  · have hDelta : VDelta p.graph.nodes { visited := [], seq := [] } st3 :=
      vdelta_trans hd1 (vdelta_trans hd2 hd3)
    obtain ⟨N, Sq, hv, hs, hNnodup, _, hperm⟩ := hDelta
    have hv' : st3.visited = N := by simpa using hv
    have hs' : st3.seq = Sq := by simpa using hs
    rw [hs']
    refine hperm.trans ?_
    have hfmNodup : (N.filterMap (fun i => nmGet p.graph.nodes i)).Nodup := by
      refine List.Nodup.filterMap ?_ hNnodup
      intro a b c hca hcb
      rw [← (nmGet_eq_some _ _ _ hca).2, ← (nmGet_eq_some _ _ _ hcb).2]
    have hnodesNodup : p.graph.nodes.Nodup := List.Nodup.of_map _ hnd
    rw [List.perm_ext_iff_of_nodup hfmNodup hnodesNodup]
    intro x
    constructor
    · intro hx
      obtain ⟨i, _, hnm⟩ := List.mem_filterMap.mp hx
      exact (nmGet_eq_some _ _ _ hnm).1
    · intro hx
      refine List.mem_filterMap.mpr ⟨x.id, ?_, nmGet_of_nodup _ hnd x hx⟩
      rw [← hv']
      exact hcov x hx

/-- A STIX bundle whose two actions form the cycle A→B→A via explicit
relationships. -/
def abCycleDoc : Doc :=
  { type := some "bundle", objects := some
      [{ id := some "A", type := some "attack-action" },
       { id := some "B", type := some "attack-action" },
       { type := some "relationship", source_ref := some "A", target_ref := some "B" },
       { type := some "relationship", source_ref := some "B", target_ref := some "A" }] }

/-- Witness for C2 on the cyclic graph built from `abCycleDoc`. -/
theorem getActionSequence_terminates_once_each_witness :
    ∃ p, make abCycleDoc 5 = some (Except.ok p) ∧
      p.graph.edges = [{ source := some "A", target := some "B" },
                       { source := some "B", target := some "A" }] ∧
      (nodeIds p.graph.nodes).Nodup ∧
      (∃ s, getActionSequence p = some s ∧ s.Perm p.graph.nodes ∧
        getActionSequence p = getActionSequence p) :=
  ⟨_, rfl, by decide, by decide,
   getActionSequence_terminates_once_each _ (by decide)⟩

end AttackFlowViz